import Mathlib

/-!
Verification of the rybbit event-ingestion-to-rollup aggregation pipeline
(server/src/services/projects): event admission (`ingestEvents`), the
aggregation scheduler (`scheduleProjectAggregation` / `flushQueue`), the daily
rollup rebuilder (`recomputeDailyAggregates`), the funnel engine
(`getFunnelStats`) and the visitor-key resolution used across the read paths.

The embedding is shallow: each TypeScript service function becomes a pure Lean
function over explicit state (the Postgres tables become lists of typed rows,
the process-local scheduler state becomes a record threaded through calls).
Runtime facilities that are not part of the repository's sources (node's
sha-256 digest, the JavaScript `Date` parser, DB-generated row ids) are
modelled from the spec where noted.
-/

namespace Rybbit

/-- Modelled from the spec: `hashSecret` (projectService) delegates to node's
sha-256 digest, a runtime facility not in the sources.  The spec requires the
digest to be deterministic and collision-resistant (equal inputs hash equal,
unequal inputs do not collide), which the injective tagging function below
satisfies exactly. -/
def hashSecret (value : String) : String :=
  "sha256:" ++ value

/-- Source `hashIdentifier` (projectService): `value ? hashSecret(value) : null`.
A missing identifier and the empty string (both falsy in JS) map to `none`. -/
def hashIdentifier (value : Option String) : Option String :=
  match value with
  | none => none
  | some v => if v = "" then none else some (hashSecret v)

/-- Decide whether a string is a calendar date "YYYY-MM-DD" with digits in
every digit position and month/day in plausible ranges. -/
def isIsoDateString (s : String) : Bool :=
  match s.toList with
  | [y1, y2, y3, y4, h1, mo1, mo2, h2, d1, d2] =>
      y1.isDigit && y2.isDigit && y3.isDigit && y4.isDigit &&
      h1 = '-' && h2 = '-' &&
      mo1.isDigit && mo2.isDigit && d1.isDigit && d2.isDigit &&
      (let mo := (mo1.toNat - 48) * 10 + (mo2.toNat - 48)
       let d := (d1.toNat - 48) * 10 + (d2.toNat - 48)
       1 ≤ mo && mo ≤ 12 && 1 ≤ d && d ≤ 31)
  | _ => false

/-- Decide whether a string is a canonical ISO-8601 UTC timestamp
"YYYY-MM-DDTHH:MM:SS.mmmZ", the form `Date.prototype.toISOString` produces
and the spec fixes for all timestamps at the API boundary. -/
def isIsoTimestamp (s : String) : Bool :=
  match s.toList with
  | [y1, y2, y3, y4, h1, mo1, mo2, h2, d1, d2, t, hh1, hh2, c1, mi1, mi2, c2,
     ss1, ss2, dot, f1, f2, f3, z] =>
      isIsoDateString (String.mk [y1, y2, y3, y4, h1, mo1, mo2, h2, d1, d2]) &&
      t = 'T' && c1 = ':' && c2 = ':' && dot = '.' && z = 'Z' &&
      hh1.isDigit && hh2.isDigit && mi1.isDigit && mi2.isDigit &&
      ss1.isDigit && ss2.isDigit && f1.isDigit && f2.isDigit && f3.isDigit &&
      (let hh := (hh1.toNat - 48) * 10 + (hh2.toNat - 48)
       let mi := (mi1.toNat - 48) * 10 + (mi2.toNat - 48)
       let ss := (ss1.toNat - 48) * 10 + (ss2.toNat - 48)
       hh ≤ 23 && mi ≤ 59 && ss ≤ 59)
  | _ => false

/-- Modelled from the spec: `new Date(string)` followed by `toISOString()`,
a runtime facility not in the sources.  All timestamps at the API boundary
are ISO-8601 UTC strings, so parsing is modelled as accepting exactly the
canonical form (on which `toISOString` is the identity) and rejecting the
rest as `NaN`. -/
def parseIsoTimestamp (s : String) : Option String :=
  if isIsoTimestamp s then some s else none

/-- Source `normalizeDate` (statsAggregationService): parse the input, return
`null` for an unparseable value, otherwise `toISOString().slice(0, 10)` —
the calendar-date part of the canonical form. -/
def normalizeDate (input : String) : Option String :=
  (parseIsoTimestamp input).map (fun s => s.take 10)

/-- SQL `DATE(occurred_at)` on a canonical ISO-8601 UTC string: its first ten
characters. -/
def dateOfIso (s : String) : String :=
  s.take 10

/-! ## Data model -/

/-- An event row as built by `ingestEvents` before insertion (the `id` column
is DB-generated and assigned at insert time). -/
structure EventRow where
  projectId : String
  occurredAt : String
  sessionHash : Option String
  userHash : Option String
  pageUrl : Option String
  path : Option String
  referrer : Option String
  country : Option String
  city : Option String
  device : Option String
  funnelId : Option String
  stepKey : Option String
  metadata : List (String × String)
  idempotencyKey : String
  createdAt : String
  deriving Repr, DecidableEq

/-- A stored row of the `project_events` table: an admitted event together
with its DB-assigned id. -/
structure StoredEvent extends EventRow where
  id : String
  deriving Repr, DecidableEq

/-- A row of the `projects` table (only the fields the modelled operations
consult are carried). -/
structure ProjectRecord where
  id : String
  organizationId : String
  name : String
  isActive : Bool
  deriving Repr, DecidableEq

/-- A row of the `project_funnels` table. -/
structure FunnelRow where
  id : String
  projectId : String
  name : String
  description : Option String
  isActive : Bool
  createdAt : String
  updatedAt : String
  deriving Repr, DecidableEq

/-- A row of the `project_funnel_steps` table. -/
structure FunnelStepRow where
  id : String
  funnelId : String
  stepOrder : Nat
  stepKey : String
  name : String
  pagePattern : Option String
  deriving Repr, DecidableEq

/-- Source `EventIngestionResult` (statsService). -/
structure EventIngestionResult where
  accepted : Nat
  total : Nat
  skipped : Nat
  errors : List (Nat × String)
  deriving Repr, DecidableEq

/-- Source `EventInput` (statsService): one payload of an ingestion batch. -/
structure EventInput where
  timestamp : String
  page_url : Option String := none
  path : Option String := none
  referrer : Option String := none
  session_id : Option String := none
  anon_id : Option String := none
  user_id : Option String := none
  metadata : List (String × String) := []
  funnel_id : Option String := none
  step : Option String := none
  country : Option String := none
  city : Option String := none
  device : Option String := none
  idempotency_key : Option String := none
  deriving Repr, DecidableEq

/-! ## Visitor-key resolution

Each read or rebuild site carries its own `COALESCE` over the stored hashes;
one definition per site, named after the function holding the expression. -/

/-- Visitor key of `recomputeDailyAggregates` (statsAggregationService):
`COALESCE(session_hash, user_hash, id)` — session hash first. -/
def rollupVisitorHash (e : StoredEvent) : String :=
  match e.sessionHash with
  | some s => s
  | none =>
    match e.userHash with
    | some u => u
    | none => e.id

/-- Visitor key of `getRealtimeStats` (statsService):
`COALESCE(sessionHash, userHash, id)` — session hash first. -/
def realtimeVisitorKey (e : StoredEvent) : String :=
  match e.sessionHash with
  | some s => s
  | none =>
    match e.userHash with
    | some u => u
    | none => e.id

/-- Visitor key of `getFunnelStats` (funnelService):
`COALESCE(sessionHash, userHash, id)` — session hash first. -/
def funnelVisitorKey (e : StoredEvent) : String :=
  match e.sessionHash with
  | some s => s
  | none =>
    match e.userHash with
    | some u => u
    | none => e.id

/-- Visitor key of `getEventSummary` (eventStatsService):
`COALESCE(userHash, sessionHash, id)` — user hash first. -/
def summaryVisitorKey (e : StoredEvent) : String :=
  match e.userHash with
  | some u => u
  | none =>
    match e.sessionHash with
    | some s => s
    | none => e.id

/-- Visitor key of `listUsers` and `countUsers` (userService):
`COALESCE(userHash, sessionHash, id)` — user hash first. -/
def usersVisitorId (e : StoredEvent) : String :=
  match e.userHash with
  | some u => u
  | none =>
    match e.sessionHash with
    | some s => s
    | none => e.id

/-- SQL `COUNT(DISTINCT expr)` over a list of already-extracted values. -/
def distinctCount (l : List String) : Nat :=
  l.dedup.length

/-! ## Aggregation scheduler

Source statsAggregationService keeps a module-level
`pendingAggregations : Map<string, Set<string>>` and a `flushScheduled` flag.
The JS `Map` (insertion order, first-set position kept on overwrite) is an
association list; the JS `Set` a duplicate-free list in insertion order. -/

/-- The pending-aggregation map: project id to the dates awaiting rebuild. -/
abbrev PendingMap := List (String × List String)

/-- Lookup in a JS `Map` modelled as an association list: the value at the
first matching key. -/
def lookupDates : PendingMap → String → Option (List String)
  | [], _ => none
  | (q, ds) :: rest, p => if q = p then some ds else lookupDates rest p

/-- JS `Map.prototype.set`: overwrite at the first matching key, else append. -/
def setDates : PendingMap → String → List String → PendingMap
  | [], p, ds => [(p, ds)]
  | (q, es) :: rest, p, ds =>
    if q = p then (p, ds) :: rest else (q, es) :: setDates rest p ds

/-- JS `Set.prototype.add`: append the element unless already present. -/
def addDate (ds : List String) (d : String) : List String :=
  if d ∈ ds then ds else ds ++ [d]

/-- The loop body of `scheduleProjectAggregation`: normalize each occurred-at
value in turn and add the valid ones to the project's date set. -/
def addDates : List String → List String → List String
  | ds, [] => ds
  | ds, v :: vs =>
    addDates
      (match normalizeDate v with
       | some d => addDate ds d
       | none => ds) vs

/-- The process-local scheduler state: the pending map and the
`flushScheduled` flag. -/
structure SchedulerState where
  pending : PendingMap
  flushScheduled : Bool
  deriving Repr, DecidableEq

/-- The dates currently pending for a project (empty when the project has no
entry). -/
def pendingDates (st : SchedulerState) (projectId : String) : List String :=
  (lookupDates st.pending projectId).getD []

/-- Source `scheduleProjectAggregation` (statsAggregationService): merge the
normalized dates into the project's pending set; schedule a flush (returned
`Bool`) only when the merged set is non-empty and no flush is pending yet.
The early return on an empty `occurredAtValues` list leaves the map untouched;
otherwise the project's (possibly empty) date set is registered before the
size check, exactly as the source mutates the `Map` before testing
`dateSet.size`. -/
def scheduleProjectAggregation (st : SchedulerState) (projectId : String)
    (occurredAtValues : List String) : SchedulerState × Bool :=
  if occurredAtValues.isEmpty then (st, false)
  else
    let ds := (lookupDates st.pending projectId).getD []
    let ds' := addDates ds occurredAtValues
    let pending' := setDates st.pending projectId ds'
    if ds'.isEmpty then ({ st with pending := pending' }, false)
    else if st.flushScheduled then ({ st with pending := pending' }, false)
    else ({ pending := pending', flushScheduled := true }, true)

/-- A sequence of synchronous `scheduleProjectAggregation` calls before the
next flush tick, together with the number of flushes they scheduled. -/
def notifyMany : SchedulerState → List (String × List String) →
    SchedulerState × Nat
  | st, [] => (st, 0)
  | st, c :: cs =>
    let next := scheduleProjectAggregation st c.1 c.2
    let rest := notifyMany next.1 cs
    (rest.1, (if next.2 then 1 else 0) + rest.2)

/-- One observable step of a flush cycle: a per-date rebuild
(`recomputeDailyAggregates(projectId, date)`) or a project-wide cache
invalidation (`invalidateProjectCache(projectId)`). -/
inductive FlushAction where
  | rebuild (projectId date : String)
  | invalidate (projectId : String)
  deriving Repr, DecidableEq

/-- Source `flushQueue` (statsAggregationService), as the sequence of actions
it performs: for each map entry in insertion order, skip an empty date set,
otherwise rebuild each date of `Array.from(dates).sort()` in order and then
invalidate that project's cache once. -/
def flushTrace (pending : PendingMap) : List FlushAction :=
  pending.flatMap fun kv =>
    if kv.2.isEmpty then []
    else
      (List.insertionSort (· ≤ ·) kv.2).map (FlushAction.rebuild kv.1) ++
        [FlushAction.invalidate kv.1]

/-- Source `flushQueue` entry: snapshot the pending map, clear it (dates
arriving later start a fresh pending set), and perform the trace.  The
surrounding `setImmediate` callback resets `flushScheduled` first. -/
def flushQueue (st : SchedulerState) : SchedulerState × List FlushAction :=
  ({ pending := [], flushScheduled := st.flushScheduled },
    flushTrace st.pending)

/-- The dates a flush trace rebuilds for one project, in trace order. -/
def rebuildPasses (trace : List FlushAction) (projectId : String) : List String :=
  trace.filterMap fun a =>
    match a with
    | FlushAction.rebuild q d => if q = projectId then some d else none
    | FlushAction.invalidate _ => none

/-- Well-formedness of the scheduler state, maintained by construction in the
source (`Map` keys are unique, `Set` members are unique): no project appears
twice in the pending map and no date appears twice in one project's set. -/
def SchedulerWF (st : SchedulerState) : Prop :=
  (st.pending.map Prod.fst).Nodup ∧ ∀ kv ∈ st.pending, kv.2.Nodup

instance : DecidablePred SchedulerWF := fun st => by
  unfold SchedulerWF; infer_instance

/-! ## Event admission (`ingestEvents`, statsService)

The whole system state an ingestion call can touch: the `project_events`
table (with the DB's id generator), the funnel metadata tables it reads for
attribution validation, and the process-local scheduler it signals. -/

/-- The state threaded through `ingestEvents`. -/
structure SysState where
  events : List StoredEvent
  nextEventId : Nat
  funnels : List FunnelRow
  funnelSteps : List FunnelStepRow
  scheduler : SchedulerState
  deriving Repr, DecidableEq

/-- Source `MAX_BATCH` (statsService). -/
def MAX_BATCH : Nat := 500

/-- Truthiness of an optional JS string: present and non-empty. -/
def truthy (s : Option String) : Bool :=
  match s with
  | some v => v ≠ ""
  | none => false

/-- The funnel ids collected from a batch (payloads with a truthy
`funnel_id`). -/
def requestedFunnelIds (payloads : List EventInput) : List String :=
  payloads.filterMap fun p => if truthy p.funnel_id then p.funnel_id else none

/-- The (funnel id, step) pairs collected from a batch (payloads with truthy
`funnel_id` and truthy `step`). -/
def requestedStepPairs (payloads : List EventInput) : List (String × String) :=
  payloads.filterMap fun p =>
    match p.funnel_id, p.step with
    | some f, some s => if f ≠ "" && s ≠ "" then some (f, s) else none
    | _, _ => none

/-- Source `getValidFunnelIds`: the requested funnel ids that exist for this
project. -/
def getValidFunnelIds (st : SysState) (projectId : String)
    (ids : List String) : List String :=
  if ids.isEmpty then []
  else (st.funnels.filter fun f =>
    f.projectId == projectId && ids.contains f.id).map (fun f => f.id)

/-- Source `getValidFunnelSteps`: `funnel_steps` rows joined to this project's
funnels whose funnel id is among the collected funnel ids and whose step key
is among the collected steps (the source queries the two `inArray` filters
independently, so the match is a cross product, not per submitted pair). -/
def getValidFunnelSteps (st : SysState) (projectId : String)
    (funnelIds : List String) (steps : List String) : List (String × String) :=
  if funnelIds.isEmpty || steps.isEmpty then []
  else
    (st.funnelSteps.filter fun s =>
      funnelIds.contains s.funnelId && steps.contains s.stepKey &&
      (st.funnels.any fun f => f.id == s.funnelId && f.projectId == projectId)
    ).map fun s => (s.funnelId, s.stepKey)

/-- The row `ingestEvents` builds for one payload (the body of the
`payloads.map` callback, after the timestamp check has passed).  `??` is JS
nullish coalescing (`Option.orElse`, which keeps an empty string);
`a.join("|")` renders a missing element as the empty string. -/
def eventRowOf (project : ProjectRecord) (nowIso : String)
    (validFunnels : List String) (validSteps : List (String × String))
    (payload : EventInput) : EventRow :=
  let funnelId :=
    match payload.funnel_id with
    | some f => if f ≠ "" && validFunnels.contains f then some f else none
    | none => none
  let stepKey :=
    match funnelId, payload.step with
    | some f, some s =>
      if s ≠ "" && validSteps.contains (f, s) then some s else none
    | _, _ => none
  { projectId := project.id
    occurredAt := payload.timestamp
    sessionHash := hashIdentifier payload.session_id
    userHash := hashIdentifier (payload.user_id.orElse fun _ => payload.anon_id)
    pageUrl := payload.page_url
    path := payload.path
    referrer := payload.referrer
    country := payload.country
    city := payload.city
    device := payload.device
    funnelId := funnelId
    stepKey := stepKey
    metadata := payload.metadata
    idempotencyKey :=
      (payload.idempotency_key).getD
        (hashSecret (String.intercalate "|"
          [payload.timestamp,
           payload.page_url.getD "",
           payload.path.getD "",
           ((payload.session_id.orElse fun _ => payload.anon_id).getD ""),
           payload.funnel_id.getD "",
           payload.step.getD ""]))
    createdAt := nowIso }

/-- The `payloads.map` of `ingestEvents`: build each row, failing the whole
call at the first payload whose timestamp does not parse. -/
def buildRows (project : ProjectRecord) (nowIso : String)
    (validFunnels : List String) (validSteps : List (String × String)) :
    List EventInput → Nat → Except String (List EventRow)
  | [], _ => Except.ok []
  | p :: ps, i =>
    if isIsoTimestamp p.timestamp then
      match buildRows project nowIso validFunnels validSteps ps (i + 1) with
      | Except.ok rows =>
        Except.ok (eventRowOf project nowIso validFunnels validSteps p :: rows)
      | Except.error msg => Except.error msg
    else Except.error ("Invalid timestamp at index " ++ toString i)

/-- The rows a batch produces once every timestamp has parsed. -/
def batchRows (project : ProjectRecord) (nowIso : String) (st : SysState)
    (payloads : List EventInput) : List EventRow :=
  payloads.map
    (eventRowOf project nowIso
      (getValidFunnelIds st project.id (requestedFunnelIds payloads))
      (getValidFunnelSteps st project.id
        ((requestedStepPairs payloads).map Prod.fst)
        ((requestedStepPairs payloads).map Prod.snd)))

/-- Whether the event store already holds a row with this
(project id, idempotency key) pair — the unique index behind
`onConflictDoNothing`. -/
def keyExists (events : List StoredEvent) (projectId key : String) : Bool :=
  events.any fun e => e.projectId == projectId && e.idempotencyKey == key

/-- The single conflict-skip `INSERT` of `ingestEvents`: process the rows in
order, skip a row whose (project id, idempotency key) pair is already in the
table (including rows inserted earlier in the same statement), assign each
inserted row a fresh DB id, and return the new table, the id counter and the
count of inserted rows (the length of the `returning` list). -/
def insertConflictSkip : List StoredEvent → Nat → List EventRow →
    List StoredEvent × Nat × Nat
  | evs, nid, [] => (evs, nid, 0)
  | evs, nid, r :: rs =>
    if keyExists evs r.projectId r.idempotencyKey then
      insertConflictSkip evs nid rs
    else
      let e : StoredEvent := { r with id := "evt-" ++ toString nid }
      let out := insertConflictSkip (evs ++ [e]) (nid + 1) rs
      (out.1, out.2.1, out.2.2 + 1)

/-- Source `ingestEvents` (statsService): empty batch short-circuit,
batch-size check, attribution validation, row construction (whole-batch
failure on an unparseable timestamp), one conflict-skip insert, and — when at
least one row was accepted — one scheduling signal carrying every row's
occurred-at value.  `nowIso` stands for `new Date().toISOString()`. -/
def ingestEvents (project : ProjectRecord) (payloads : List EventInput)
    (nowIso : String) (st : SysState) :
    Except String EventIngestionResult × SysState :=
  if payloads.isEmpty then
    (Except.ok { accepted := 0, total := 0, skipped := 0, errors := [] }, st)
  else if MAX_BATCH < payloads.length then
    (Except.error
      ("Payload exceeds maximum batch size of " ++ toString MAX_BATCH ++ " events"),
      st)
  else
    let validFunnels :=
      getValidFunnelIds st project.id (requestedFunnelIds payloads)
    let validSteps :=
      getValidFunnelSteps st project.id
        ((requestedStepPairs payloads).map Prod.fst)
        ((requestedStepPairs payloads).map Prod.snd)
    match buildRows project nowIso validFunnels validSteps payloads 0 with
    | Except.error msg => (Except.error msg, st)
    | Except.ok rows =>
      let ins := insertConflictSkip st.events st.nextEventId rows
      let accepted := ins.2.2
      let skipped := rows.length - accepted
      let sched' :=
        if 0 < accepted then
          (scheduleProjectAggregation st.scheduler project.id
            (rows.map fun r => r.occurredAt)).1
        else st.scheduler
      (Except.ok
        { accepted := accepted, total := rows.length, skipped := skipped,
          errors := [] },
        { st with events := ins.1, nextEventId := ins.2.1, scheduler := sched' })

/-- The (project id, idempotency key) pairs of the stored events. -/
def eventKeys (events : List StoredEvent) : List (String × String) :=
  events.map fun e => (e.projectId, e.idempotencyKey)

/-- The (project id, idempotency key) pairs of a batch's rows. -/
def rowKeys (rows : List EventRow) : List (String × String) :=
  rows.map fun r => (r.projectId, r.idempotencyKey)

/-- How many of the listed keys already exist in the event store at the moment
their row is processed: the initial keys plus the keys of every earlier row of
the same statement. -/
def countDup (initial : List (String × String)) :
    List (String × String) → Nat
  | [] => 0
  | k :: ks => (if k ∈ initial then 1 else 0) + countDup (initial ++ [k]) ks

/-! ## Rollup rebuilder (`recomputeDailyAggregates`, statsAggregationService) -/

/-- A row of `project_overview_daily`. -/
structure OverviewRow where
  projectId : String
  eventDate : String
  visits : Nat
  uniqueVisitors : Nat
  firstSeenAt : String
  lastSeenAt : String
  deriving Repr, DecidableEq

/-- A row of `page_agg_daily`. -/
structure PageAggRow where
  projectId : String
  pagePath : Option String
  pageUrl : Option String
  eventDate : String
  visits : Nat
  uniqueVisitors : Nat
  conversions : Nat
  firstSeenAt : String
  lastSeenAt : String
  deriving Repr, DecidableEq

/-- A row of `project_visitors_daily`. -/
structure VisitorRow where
  projectId : String
  eventDate : String
  visitorHash : String
  firstSeenAt : String
  lastSeenAt : String
  deriving Repr, DecidableEq

/-- A row of `project_page_visitors_daily`. -/
structure PageVisitorRow where
  projectId : String
  eventDate : String
  pagePath : Option String
  pageUrl : Option String
  visitorHash : String
  firstSeenAt : String
  lastSeenAt : String
  deriving Repr, DecidableEq

/-- The aggregation store: the four daily rollup tables. -/
structure RollupDB where
  overview : List OverviewRow
  pageAgg : List PageAggRow
  visitors : List VisitorRow
  pageVisitors : List PageVisitorRow
  deriving Repr, DecidableEq

/-- The events of one project inside the rebuilt day.  The source filters
`occurred_at >= dayStart AND occurred_at < dayStart + 24h`; over canonical
ISO-8601 UTC strings that half-open window holds exactly the timestamps whose
date part equals `date`. -/
def dayEvents (store : List StoredEvent) (projectId date : String) :
    List StoredEvent :=
  store.filter fun e => e.projectId == projectId && dateOfIso e.occurredAt == date

/-- SQL `MIN(occurred_at)` over a group (groups are non-empty, so the default
is never consulted). -/
def minOccurredAt (l : List StoredEvent) : String :=
  ((l.map fun e => e.occurredAt).min?).getD ""

/-- SQL `MAX(occurred_at)` over a group. -/
def maxOccurredAt (l : List StoredEvent) : String :=
  ((l.map fun e => e.occurredAt).max?).getD ""

/-- One delete-then-insert pair of the rebuild transaction:
`DELETE ... WHERE project_id = p AND event_date = d` followed by the bulk
insert of the freshly computed rows. -/
def replaceSlice {α : Type} (inSlice : α → Bool) (tbl rows : List α) : List α :=
  tbl.filter (fun r => ! inSlice r) ++ rows

/-- The `project_overview_daily` rows `recomputeDailyAggregates` inserts:
one row per day (`GROUP BY DATE(occurred_at)` over a one-day window), absent
when the day has no events. -/
def overviewRowsFor (store : List StoredEvent) (projectId date : String) :
    List OverviewRow :=
  let slice := dayEvents store projectId date
  if slice.isEmpty then []
  else
    [{ projectId := projectId
       eventDate := date
       visits := slice.length
       uniqueVisitors := distinctCount (slice.map rollupVisitorHash)
       firstSeenAt := minOccurredAt slice
       lastSeenAt := maxOccurredAt slice }]

/-- The `page_agg_daily` rows: `GROUP BY path, page_url, DATE(occurred_at)`. -/
def pageAggRowsFor (store : List StoredEvent) (projectId date : String) :
    List PageAggRow :=
  let slice := dayEvents store projectId date
  ((slice.map fun e => (e.path, e.pageUrl)).dedup).map fun k =>
    let grp := slice.filter fun e => (e.path, e.pageUrl) == k
    { projectId := projectId
      pagePath := k.1
      pageUrl := k.2
      eventDate := date
      visits := grp.length
      uniqueVisitors := distinctCount (grp.map rollupVisitorHash)
      conversions := 0
      firstSeenAt := minOccurredAt grp
      lastSeenAt := maxOccurredAt grp }

/-- The `project_visitors_daily` rows: `GROUP BY DATE(occurred_at),
visitor_hash`. -/
def visitorRowsFor (store : List StoredEvent) (projectId date : String) :
    List VisitorRow :=
  let slice := dayEvents store projectId date
  ((slice.map rollupVisitorHash).dedup).map fun h =>
    let grp := slice.filter fun e => rollupVisitorHash e == h
    { projectId := projectId
      eventDate := date
      visitorHash := h
      firstSeenAt := minOccurredAt grp
      lastSeenAt := maxOccurredAt grp }

/-- The `project_page_visitors_daily` rows: `GROUP BY DATE(occurred_at),
path, page_url, visitor_hash`. -/
def pageVisitorRowsFor (store : List StoredEvent) (projectId date : String) :
    List PageVisitorRow :=
  let slice := dayEvents store projectId date
  ((slice.map fun e => (e.path, e.pageUrl, rollupVisitorHash e)).dedup).map
    fun k =>
      let grp := slice.filter fun e =>
        (e.path, e.pageUrl, rollupVisitorHash e) == k
      { projectId := projectId
        eventDate := date
        pagePath := k.1
        pageUrl := k.2.1
        visitorHash := k.2.2
        firstSeenAt := minOccurredAt grp
        lastSeenAt := maxOccurredAt grp }

/-- Source `recomputeDailyAggregates` (statsAggregationService): return
unchanged when the date string does not parse (the `dayStart` NaN guard);
otherwise, in one transaction, delete the (project, date) slice of each of
the four rollup tables and insert the freshly recomputed rows. -/
def recomputeDailyAggregates (store : List StoredEvent)
    (projectId date : String) (db : RollupDB) : RollupDB :=
  if ¬ isIsoDateString date then db
  else
    { overview :=
        replaceSlice (fun r => r.projectId == projectId && r.eventDate == date)
          db.overview (overviewRowsFor store projectId date)
      pageAgg :=
        replaceSlice (fun r => r.projectId == projectId && r.eventDate == date)
          db.pageAgg (pageAggRowsFor store projectId date)
      visitors :=
        replaceSlice (fun r => r.projectId == projectId && r.eventDate == date)
          db.visitors (visitorRowsFor store projectId date)
      pageVisitors :=
        replaceSlice (fun r => r.projectId == projectId && r.eventDate == date)
          db.pageVisitors (pageVisitorRowsFor store projectId date) }

/-! ## Funnel engine (`getFunnelStats`, funnelService) -/

/-- A step as `getFunnel` returns it. -/
structure FunnelStepInfo where
  id : String
  key : String
  name : String
  order : Nat
  pagePattern : Option String
  deriving Repr, DecidableEq

/-- Source `FunnelRecord` (funnelService): a funnel with its steps in
ascending `step_order`. -/
structure FunnelRecord where
  id : String
  projectId : String
  name : String
  description : Option String
  isActive : Bool
  createdAt : String
  updatedAt : String
  steps : List FunnelStepInfo
  deriving Repr, DecidableEq

/-- Source `FunnelStatsRequest` (funnelService). -/
structure FunnelStatsRequest where
  from? : Option String := none
  to? : Option String := none
  deriving Repr, DecidableEq

/-- Source `FunnelStepStats` (funnelService).  `conversionRate` is modelled as
an exact rational (JS carries it as a float rounded to two decimals). -/
structure FunnelStepStats where
  stepKey : String
  name : String
  visits : Nat
  conversions : Nat
  dropOff : Nat
  conversionRate : ℚ
  order : Nat
  deriving Repr, DecidableEq

/-- Source `FunnelStats` (funnelService). -/
structure FunnelStats where
  funnelId : String
  totalVisitors : Nat
  steps : List FunnelStepStats
  deriving Repr, DecidableEq

instance stepOrderLeDecidable :
    DecidableRel (fun a b : FunnelStepRow => a.stepOrder ≤ b.stepOrder) :=
  fun a b => Nat.decLe a.stepOrder b.stepOrder

/-- Source `getFunnel` (funnelService): the funnel owned by the project, with
its steps ordered by ascending `step_order` (`null` when the funnel does not
belong to the project). -/
def getFunnel (st : SysState) (projectId funnelId : String) :
    Option FunnelRecord :=
  match st.funnels.find? (fun f => f.id == funnelId && f.projectId == projectId) with
  | none => none
  | some f =>
    some
      { id := f.id
        projectId := f.projectId
        name := f.name
        description := f.description
        isActive := f.isActive
        createdAt := f.createdAt
        updatedAt := f.updatedAt
        steps :=
          (List.insertionSort (fun a b : FunnelStepRow => a.stepOrder ≤ b.stepOrder)
            (st.funnelSteps.filter fun s => s.funnelId == funnelId)).map
            fun s =>
              { id := s.id, key := s.stepKey, name := s.name,
                order := s.stepOrder, pagePattern := s.pagePattern } }

/-- The events `getFunnelStats` aggregates: this project's events carrying
this funnel id, within the optional time range. -/
def funnelRangeEvents (st : SysState) (projectId funnelId : String)
    (params : FunnelStatsRequest) : List StoredEvent :=
  st.events.filter fun e =>
    e.projectId == projectId && e.funnelId == some funnelId &&
    (match params.from? with
     | some f => decide (f ≤ e.occurredAt)
     | none => true) &&
    (match params.to? with
     | some t => decide (e.occurredAt ≤ t)
     | none => true)

/-- The per-step distinct-visitor count of `getFunnelStats`
(`COUNT(DISTINCT COALESCE(sessionHash, userHash, id)) ... GROUP BY stepKey`,
read back through `visitorsByStep.get(key) ?? 0`). -/
def stepVisitors (st : SysState) (projectId funnelId : String)
    (params : FunnelStatsRequest) (key : String) : Nat :=
  distinctCount
    (((funnelRangeEvents st projectId funnelId params).filter
        fun e => e.stepKey == some key).map funnelVisitorKey)

/-- JS `Number(x.toFixed(2))`: rounding to two decimal places, modelled as
exact rational rounding (round half away from even ties does not arise in the
claims; `round` rounds half up). -/
def toFixed2 (q : ℚ) : ℚ :=
  ((round (q * 100) : ℤ) : ℚ) / 100

/-- Source `getFunnelStats` (funnelService): `null` for a funnel the project
does not own; a zero-valued result for a funnel with no steps; otherwise one
output entry per step in funnel order, where `conversions` is the next step's
visits (the last step converts into itself), `dropOff` is the visit surplus
clamped at zero (`Math.max`, which Nat subtraction renders) and
`conversionRate` is `conversions / visits × 100` rounded to two decimals, or
`0` when `visits` is zero. -/
def getFunnelStats (st : SysState) (projectId funnelId : String)
    (params : FunnelStatsRequest) : Option FunnelStats :=
  match getFunnel st projectId funnelId with
  | none => none
  | some funnel =>
    if funnel.steps.isEmpty then
      some { funnelId := funnelId, totalVisitors := 0, steps := [] }
    else
      let visits := fun key => stepVisitors st projectId funnelId params key
      some
        { funnelId := funnelId
          totalVisitors :=
            match funnel.steps with
            | [] => 0
            | s :: _ => visits s.key
          steps :=
            funnel.steps.enum.map fun pair =>
              let v := visits pair.2.key
              let conversions :=
                if pair.1 = funnel.steps.length - 1 then v
                else
                  match funnel.steps[pair.1 + 1]? with
                  | some s2 => visits s2.key
                  | none => 0
              { stepKey := pair.2.key
                name := pair.2.name
                visits := v
                conversions := conversions
                dropOff := v - conversions
                conversionRate :=
                  if 0 < v then toFixed2 (((conversions : ℚ) / (v : ℚ)) * 100)
                  else 0
                order := pair.2.order } }

/-! ## Event summary (`getEventSummary`, eventStatsService) -/

/-- Source `EventSummary` (eventStatsService). -/
structure EventSummary where
  totalEvents : Nat
  uniqueVisitors : Nat
  uniqueSessions : Nat
  firstSeen : Option String
  lastSeen : Option String
  deriving Repr, DecidableEq

/-- Source `getEventSummary` (eventStatsService): one aggregate row over this
project's events in the optional range, counting distinct visitors through
`COALESCE(userHash, sessionHash, id)` — the user hash first. -/
def getEventSummary (st : SysState) (projectId : String)
    (from? to? : Option String) : EventSummary :=
  let evs := st.events.filter fun e =>
    e.projectId == projectId &&
    (match from? with
     | some f => decide (f ≤ e.occurredAt)
     | none => true) &&
    (match to? with
     | some t => decide (e.occurredAt ≤ t)
     | none => true)
  { totalEvents := evs.length
    uniqueVisitors := distinctCount (evs.map summaryVisitorKey)
    uniqueSessions := distinctCount (evs.filterMap fun e => e.sessionHash)
    firstSeen := (evs.map fun e => e.occurredAt).min?
    lastSeen := (evs.map fun e => e.occurredAt).max? }

/-! ## Concrete fixtures used by witnesses and counterexamples -/

deriving instance DecidableEq for Except

/-- A stored event with every optional column absent, to be specialised. -/
def baseEvent : StoredEvent :=
  { projectId := "proj"
    occurredAt := "2025-01-01T10:00:00.000Z"
    sessionHash := none
    userHash := none
    pageUrl := none
    path := none
    referrer := none
    country := none
    city := none
    device := none
    funnelId := none
    stepKey := none
    metadata := []
    idempotencyKey := "k0"
    createdAt := "2025-01-01T10:00:00.000Z"
    id := "evt-0" }

/-- A project row used by concrete instances. -/
def proj0 : ProjectRecord :=
  { id := "proj", organizationId := "org", name := "Demo", isActive := true }

/-- A system state with empty tables and an idle scheduler. -/
def emptySys : SysState :=
  { events := [], nextEventId := 0, funnels := [], funnelSteps := [],
    scheduler := { pending := [], flushScheduled := false } }

/-- An empty aggregation store. -/
def emptyRollup : RollupDB :=
  { overview := [], pageAgg := [], visitors := [], pageVisitors := [] }

/-- A stored event carrying both a session hash and a user hash. -/
def evBothHashes : StoredEvent :=
  { baseEvent with
      sessionHash := some "sess-hash", userHash := some "user-hash",
      id := "evt-1" }

/-- Two stored events of one session by two different users. -/
def evUserOne : StoredEvent :=
  { baseEvent with
      sessionHash := some "s1h", userHash := some "u1h",
      id := "evt-1", idempotencyKey := "k1" }

/-- Second event of the shared session, by another user. -/
def evUserTwo : StoredEvent :=
  { baseEvent with
      sessionHash := some "s1h", userHash := some "u2h",
      id := "evt-2", idempotencyKey := "k2" }

/-- A system state holding the two shared-session events. -/
def stSharedSession : SysState :=
  { emptySys with events := [evUserOne, evUserTwo], nextEventId := 3 }

/-- A scheduler state with two out-of-order pending dates for one project. -/
def stPendingTwo : SchedulerState :=
  { pending := [("p", ["2025-01-02", "2025-01-01"])], flushScheduled := true }

/-- A batch pairing a fresh event dated 2025-01-01 with a duplicate of the
stored key "k2" dated 2025-01-02. -/
def payloadsDup : List EventInput :=
  [{ timestamp := "2025-01-01T10:00:00.000Z", session_id := some "sa",
     idempotency_key := some "ka" },
   { timestamp := "2025-01-02T11:00:00.000Z", session_id := some "sb",
     idempotency_key := some "k2" }]

/-- A funnel row owned by project "proj". -/
def funnelABC : FunnelRow :=
  { id := "fn", projectId := "proj", name := "Checkout", description := none,
    isActive := true, createdAt := "2025-01-01T00:00:00.000Z",
    updatedAt := "2025-01-01T00:00:00.000Z" }

/-- Step row A of the fixture funnel. -/
def stepRowA : FunnelStepRow :=
  { id := "stA", funnelId := "fn", stepOrder := 0, stepKey := "A",
    name := "A", pagePattern := none }

/-- Step row B of the fixture funnel. -/
def stepRowB : FunnelStepRow :=
  { id := "stB", funnelId := "fn", stepOrder := 1, stepKey := "B",
    name := "B", pagePattern := none }

/-- Step row C of the fixture funnel. -/
def stepRowC : FunnelStepRow :=
  { id := "stC", funnelId := "fn", stepOrder := 2, stepKey := "C",
    name := "C", pagePattern := none }

/-- An event attributed to the fixture funnel, one per (number, step,
session). -/
def funnelEvent (n : Nat) (step sess : String) : StoredEvent :=
  { baseEvent with
      id := "evt-" ++ toString n
      idempotencyKey := "fk-" ++ toString n
      funnelId := some "fn"
      stepKey := some step
      sessionHash := some sess }

/-- The spec's worked example: 10, 6, 6 distinct visitors on steps A, B, C. -/
def eventsABC : List StoredEvent :=
  [funnelEvent 1 "A" "a1", funnelEvent 2 "A" "a2", funnelEvent 3 "A" "a3",
   funnelEvent 4 "A" "a4", funnelEvent 5 "A" "a5", funnelEvent 6 "A" "a6",
   funnelEvent 7 "A" "a7", funnelEvent 8 "A" "a8", funnelEvent 9 "A" "a9",
   funnelEvent 10 "A" "a10",
   funnelEvent 11 "B" "b1", funnelEvent 12 "B" "b2", funnelEvent 13 "B" "b3",
   funnelEvent 14 "B" "b4", funnelEvent 15 "B" "b5", funnelEvent 16 "B" "b6",
   funnelEvent 17 "C" "c1", funnelEvent 18 "C" "c2", funnelEvent 19 "C" "c3",
   funnelEvent 20 "C" "c4", funnelEvent 21 "C" "c5", funnelEvent 22 "C" "c6"]

/-- The system state of the 10/6/6 worked example. -/
def stABC : SysState :=
  { emptySys with
      events := eventsABC
      funnels := [funnelABC]
      funnelSteps := [stepRowA, stepRowB, stepRowC] }

/-- Step A as `getFunnel` reports it. -/
def stepInfoA : FunnelStepInfo :=
  { id := "stA", key := "A", name := "A", order := 0, pagePattern := none }

/-- Step B as `getFunnel` reports it. -/
def stepInfoB : FunnelStepInfo :=
  { id := "stB", key := "B", name := "B", order := 1, pagePattern := none }

/-- Step C as `getFunnel` reports it. -/
def stepInfoC : FunnelStepInfo :=
  { id := "stC", key := "C", name := "C", order := 2, pagePattern := none }

/-- The funnel record `getFunnel` returns for the three-step fixture. -/
def funnelRecABC : FunnelRecord :=
  { id := "fn", projectId := "proj", name := "Checkout", description := none,
    isActive := true, createdAt := "2025-01-01T00:00:00.000Z",
    updatedAt := "2025-01-01T00:00:00.000Z",
    steps := [stepInfoA, stepInfoB, stepInfoC] }

/-- A two-step state in which step B has more distinct visitors (2) than
step A (1). -/
def stUncapped : SysState :=
  { emptySys with
      events := [funnelEvent 1 "A" "x1", funnelEvent 2 "B" "y1",
                 funnelEvent 3 "B" "y2"]
      funnels := [funnelABC]
      funnelSteps := [stepRowA, stepRowB] }

/-- The funnel record `getFunnel` returns for the two-step fixture. -/
def funnelRecAB : FunnelRecord :=
  { id := "fn", projectId := "proj", name := "Checkout", description := none,
    isActive := true, createdAt := "2025-01-01T00:00:00.000Z",
    updatedAt := "2025-01-01T00:00:00.000Z",
    steps := [stepInfoA, stepInfoB] }

/-- The result and state `ingestEvents` produces on its success path (batch
non-empty, within the size limit, all timestamps parseable), written out for
reuse in theorems. -/
def ingestOutcome (project : ProjectRecord) (payloads : List EventInput)
    (nowIso : String) (st : SysState) : EventIngestionResult × SysState :=
  let rows := batchRows project nowIso st payloads
  let ins := insertConflictSkip st.events st.nextEventId rows
  ({ accepted := ins.2.2, total := rows.length,
     skipped := rows.length - ins.2.2, errors := [] },
   { st with
      events := ins.1
      nextEventId := ins.2.1
      scheduler :=
        if 0 < ins.2.2 then
          (scheduleProjectAggregation st.scheduler project.id
            (rows.map fun r => r.occurredAt)).1
        else st.scheduler })

/-! ## C1 — visitor-key resolution across the paths -/

/-- C1 counterexample: the claimed user-first priority and the claimed
cross-path agreement both fail on the code.  On an event carrying both
hashes the rollup rebuilder's key (`COALESCE(session_hash, user_hash, id)`)
is the session hash, not the user hash, and differs from the event-summary
key (`COALESCE(userHash, sessionHash, id)`); on a two-event store sharing
one session across two users, the rebuilt overview row counts 1 unique
visitor while `getEventSummary` reports 2 for the same stored events. -/
theorem visitorKey_not_uniform_counterexample :
    rollupVisitorHash evBothHashes ≠ summaryVisitorKey evBothHashes ∧
    rollupVisitorHash evBothHashes = "sess-hash" ∧
    summaryVisitorKey evBothHashes = "user-hash" ∧
    ((recomputeDailyAggregates stSharedSession.events "proj" "2025-01-01"
        emptyRollup).overview.map fun r => r.uniqueVisitors) = [1] ∧
    (getEventSummary stSharedSession "proj" none none).uniqueVisitors = 2 := by
  exact ⟨by decide, by decide, by decide, by decide, by decide⟩

/-- C1 amended: visitor-key resolution is deterministic but split in two
camps.  The rollup rebuilder, the realtime query and the funnel engine share
one resolution (session hash first, else user hash, else the event id); the
event summary and the user listing share the opposite priority (user hash
first); an event lacking one of the two hashes — in particular an event with
neither, which is its own singleton visitor — resolves identically
everywhere, but an event carrying both may resolve differently across the
two camps. -/
theorem visitorKey_resolution_amended (e : StoredEvent) :
    rollupVisitorHash e = realtimeVisitorKey e ∧
    rollupVisitorHash e = funnelVisitorKey e ∧
    summaryVisitorKey e = usersVisitorId e ∧
    (e.sessionHash = none → e.userHash = none →
      rollupVisitorHash e = e.id ∧ summaryVisitorKey e = e.id) ∧
    ((e.sessionHash = none ∨ e.userHash = none) →
      rollupVisitorHash e = summaryVisitorKey e) := by
  unfold rollupVisitorHash realtimeVisitorKey funnelVisitorKey
    summaryVisitorKey usersVisitorId
  rcases hs : e.sessionHash with _ | s <;> rcases hu : e.userHash with _ | u <;>
    simp [hs, hu]

/-! ## C6 — idempotence of the per-date rebuild -/

/-- Rows that all lie in the deleted slice vanish under the delete filter. -/
theorem filter_keep_of_inSlice {α : Type} (inSlice : α → Bool)
    (rows : List α) (h : ∀ r ∈ rows, inSlice r = true) :
    rows.filter (fun r => ! inSlice r) = [] := by
  induction rows with
  | nil => rfl
  | cons r rs ih =>
    have hr : inSlice r = true := h r (List.mem_cons_self r rs)
    simp [List.filter_cons, hr, ih fun x hx => h x (List.mem_cons_of_mem r hx)]

/-- Deleting a (project, date) slice and reinserting rows that all belong to
that slice is idempotent. -/
theorem replaceSlice_idem {α : Type} (inSlice : α → Bool) (tbl rows : List α)
    (h : ∀ r ∈ rows, inSlice r = true) :
    replaceSlice inSlice (replaceSlice inSlice tbl rows) rows =
      replaceSlice inSlice tbl rows := by
  unfold replaceSlice
  rw [List.filter_append, filter_keep_of_inSlice inSlice rows h,
    List.append_nil, List.filter_filter]
  simp [Bool.and_self]

/-- Every freshly computed overview row lies in the deleted slice. -/
theorem overviewRowsFor_inSlice (store : List StoredEvent) (p d : String) :
    ∀ r ∈ overviewRowsFor store p d,
      (r.projectId == p && r.eventDate == d) = true := by
  intro r hr
  by_cases hempty : (dayEvents store p d).isEmpty
  · simp [overviewRowsFor, hempty] at hr
  · simp [overviewRowsFor, hempty] at hr
    subst hr; simp

/-- Every freshly computed page row lies in the deleted slice. -/
theorem pageAggRowsFor_inSlice (store : List StoredEvent) (p d : String) :
    ∀ r ∈ pageAggRowsFor store p d,
      (r.projectId == p && r.eventDate == d) = true := by
  intro r hr
  unfold pageAggRowsFor at hr
  rcases List.mem_map.mp hr with ⟨k, _, rfl⟩
  simp

/-- Every freshly computed visitor row lies in the deleted slice. -/
theorem visitorRowsFor_inSlice (store : List StoredEvent) (p d : String) :
    ∀ r ∈ visitorRowsFor store p d,
      (r.projectId == p && r.eventDate == d) = true := by
  intro r hr
  unfold visitorRowsFor at hr
  rcases List.mem_map.mp hr with ⟨k, _, rfl⟩
  simp

/-- Every freshly computed page-visitor row lies in the deleted slice. -/
theorem pageVisitorRowsFor_inSlice (store : List StoredEvent) (p d : String) :
    ∀ r ∈ pageVisitorRowsFor store p d,
      (r.projectId == p && r.eventDate == d) = true := by
  intro r hr
  unfold pageVisitorRowsFor at hr
  rcases List.mem_map.mp hr with ⟨k, _, rfl⟩
  simp

/-- C6: the per-date rebuild is idempotent — run twice for the same
(project, date) over the same underlying events, the second run deletes
exactly what the first inserted and reinserts the identical rows, leaving
all four rollup tables equal. -/
theorem recomputeDailyAggregates_idem (store : List StoredEvent)
    (projectId date : String) (db : RollupDB) :
    recomputeDailyAggregates store projectId date
        (recomputeDailyAggregates store projectId date db) =
      recomputeDailyAggregates store projectId date db := by
  by_cases hd : isIsoDateString date
  · simp only [recomputeDailyAggregates, hd, not_true_eq_false, if_false]
    congr 1
    · exact replaceSlice_idem _ _ _ (overviewRowsFor_inSlice store projectId date)
    · exact replaceSlice_idem _ _ _ (pageAggRowsFor_inSlice store projectId date)
    · exact replaceSlice_idem _ _ _ (visitorRowsFor_inSlice store projectId date)
    · exact replaceSlice_idem _ _ _ (pageVisitorRowsFor_inSlice store projectId date)
  · simp [recomputeDailyAggregates, hd]

/-! ## C9 — `errors` is always empty on a normal return -/

/-- C9: although `EventIngestionResult` declares a per-item `errors` field,
every return path of `ingestEvents` builds it as the empty list (all failure
modes throw instead), so any normally returned result has `errors = []`. -/
theorem ingest_errors_always_empty (project : ProjectRecord)
    (payloads : List EventInput) (nowIso : String) (st : SysState)
    (res : EventIngestionResult) (st' : SysState)
    (h : ingestEvents project payloads nowIso st = (Except.ok res, st')) :
    res.errors = [] := by
  simp only [ingestEvents] at h
  split at h
  · simp only [Prod.mk.injEq, Except.ok.injEq] at h
    rw [← h.1]
  · split at h
    · simp at h
    · split at h
      · simp at h
      · simp only [Prod.mk.injEq, Except.ok.injEq] at h
        rw [← h.1]

/-- C9 witness: the empty-batch short-circuit returns a result whose
`errors` list the theorem evaluates to `[]`. -/
theorem ingest_errors_always_empty_witness :
    ({ accepted := 0, total := 0, skipped := 0, errors := [] } :
      EventIngestionResult).errors = [] :=
  ingest_errors_always_empty proj0 [] "2025-01-01T00:00:00.000Z" emptySys
    { accepted := 0, total := 0, skipped := 0, errors := [] } emptySys rfl

/-! ## C7 — whole-batch rejection -/

/-- A batch containing an unparseable timestamp fails row construction. -/
theorem buildRows_error_of_bad (project : ProjectRecord) (nowIso : String)
    (vf : List String) (vs : List (String × String)) :
    ∀ (ps : List EventInput) (i : Nat),
      (∃ p ∈ ps, isIsoTimestamp p.timestamp = false) →
      ∃ msg, buildRows project nowIso vf vs ps i = Except.error msg := by
  intro ps
  induction ps with
  | nil => intro i h; rcases h with ⟨p, hp, _⟩; cases hp
  | cons p ps ih =>
    intro i h
    by_cases hts : isIsoTimestamp p.timestamp
    · rcases h with ⟨q, hq, hbad⟩
      rcases List.mem_cons.mp hq with rfl | hq'
      · rw [hts] at hbad; cases hbad
      · rcases ih (i + 1) ⟨q, hq', hbad⟩ with ⟨msg, hmsg⟩
        refine ⟨msg, ?_⟩
        unfold buildRows
        rw [if_pos hts, hmsg]
    · refine ⟨"Invalid timestamp at index " ++ toString i, ?_⟩
      unfold buildRows
      rw [if_neg hts]

/-- C7: a batch that exceeds 500 events or contains an event with an
unparseable timestamp fails the whole call: `ingestEvents` raises an error,
and the returned state is the input state — no event row inserted, no
scheduling signal emitted. -/
theorem ingest_rejects_whole_batch (project : ProjectRecord)
    (payloads : List EventInput) (nowIso : String) (st : SysState)
    (h : MAX_BATCH < payloads.length ∨
      ∃ p ∈ payloads, isIsoTimestamp p.timestamp = false) :
    ∃ msg, ingestEvents project payloads nowIso st = (Except.error msg, st) := by
  have hne : ¬ payloads.isEmpty := by
    rcases h with hbig | ⟨p, hp, _⟩
    · intro hemp
      rw [List.isEmpty_iff] at hemp
      subst hemp
      simp [MAX_BATCH] at hbig
    · intro hemp
      rw [List.isEmpty_iff] at hemp
      subst hemp
      cases hp
  by_cases hbig : MAX_BATCH < payloads.length
  · refine ⟨"Payload exceeds maximum batch size of " ++ toString MAX_BATCH ++
      " events", ?_⟩
    unfold ingestEvents
    rw [if_neg (by simpa using hne), if_pos hbig]
  · rcases h with hbig' | hbad
    · exact absurd hbig' hbig
    · rcases buildRows_error_of_bad project nowIso
        (getValidFunnelIds st project.id (requestedFunnelIds payloads))
        (getValidFunnelSteps st project.id
          ((requestedStepPairs payloads).map Prod.fst)
          ((requestedStepPairs payloads).map Prod.snd))
        payloads 0 hbad with ⟨msg, hmsg⟩
      refine ⟨msg, ?_⟩
      unfold ingestEvents
      rw [if_neg (by simpa using hne), if_neg hbig]
      simp only [hmsg]

/-- C7 witness: a singleton batch with the unparseable timestamp
"not-a-date" is rejected with the state unchanged. -/
theorem ingest_rejects_whole_batch_witness :
    ∃ msg, ingestEvents proj0 [{ timestamp := "not-a-date" }]
      "2025-01-01T00:00:00.000Z" emptySys = (Except.error msg, emptySys) :=
  ingest_rejects_whole_batch proj0 [{ timestamp := "not-a-date" }]
    "2025-01-01T00:00:00.000Z" emptySys
    (Or.inr ⟨{ timestamp := "not-a-date" }, by decide, by decide⟩)

/-! ## C2 — batch accounting of the success path -/

/-- The conflict check of the insert agrees with membership in the stored
key pairs. -/
theorem keyExists_iff (evs : List StoredEvent) (p k : String) :
    keyExists evs p k = true ↔ (p, k) ∈ eventKeys evs := by
  simp [keyExists, eventKeys, List.any_eq_true, List.mem_map, Prod.ext_iff,
    and_assoc]

/-- Appending one stored event appends its key pair. -/
theorem eventKeys_append (evs : List StoredEvent) (e : StoredEvent) :
    eventKeys (evs ++ [e]) = eventKeys evs ++ [(e.projectId, e.idempotencyKey)] := by
  simp [eventKeys]

/-- The duplicate count only depends on which keys the initial store holds,
not on their multiplicity or order. -/
theorem countDup_congr (ks : List (String × String)) :
    ∀ i1 i2, (∀ x, x ∈ i1 ↔ x ∈ i2) → countDup i1 ks = countDup i2 ks := by
  induction ks with
  | nil => intro i1 i2 _; rfl
  | cons k ks ih =>
    intro i1 i2 h
    unfold countDup
    rw [ih (i1 ++ [k]) (i2 ++ [k]) (by intro x; simp [h x])]
    by_cases hk : k ∈ i2
    · rw [if_pos ((h k).mpr hk), if_pos hk]
    · rw [if_neg (fun hh => hk ((h k).mp hh)), if_neg hk]

/-- Accounting of the conflict-skip insert: the accepted count plus the
number of rows whose key pair exists at their processing moment (initial
store keys plus earlier rows of the same statement) is the batch length. -/
theorem insert_accepted_add_countDup (rows : List EventRow) :
    ∀ (evs : List StoredEvent) (nid : Nat),
      (insertConflictSkip evs nid rows).2.2 +
        countDup (eventKeys evs) (rowKeys rows) = rows.length := by
  induction rows with
  | nil => intro evs nid; rfl
  | cons r rs ih =>
    intro evs nid
    by_cases hk : keyExists evs r.projectId r.idempotencyKey
    · have hmem : (r.projectId, r.idempotencyKey) ∈ eventKeys evs :=
        (keyExists_iff evs r.projectId r.idempotencyKey).mp hk
      have hskip : insertConflictSkip evs nid (r :: rs) =
          insertConflictSkip evs nid rs := by
        conv_lhs => rw [insertConflictSkip]
        rw [if_pos hk]
      have hco : countDup (eventKeys evs ++ [(r.projectId, r.idempotencyKey)])
          (rowKeys rs) = countDup (eventKeys evs) (rowKeys rs) :=
        countDup_congr (rowKeys rs) _ _ (by
          intro x
          simp only [List.mem_append, List.mem_singleton]
          constructor
          · rintro (hx | rfl)
            · exact hx
            · exact hmem
          · intro hx; exact Or.inl hx)
      have hIH := ih evs nid
      simp only [hskip, rowKeys, List.map_cons, countDup, if_pos hmem,
        List.length_cons]
      simp only [rowKeys] at hco hIH
      omega
    · have hins : insertConflictSkip evs nid (r :: rs) =
          (let e : StoredEvent := { r with id := "evt-" ++ toString nid }
           let out := insertConflictSkip (evs ++ [e]) (nid + 1) rs
           (out.1, out.2.1, out.2.2 + 1)) := by
        conv_lhs => rw [insertConflictSkip]
        rw [if_neg hk]
      have hnmem : (r.projectId, r.idempotencyKey) ∉ eventKeys evs :=
        fun hm => hk ((keyExists_iff evs r.projectId r.idempotencyKey).mpr hm)
      have hIH := ih
        (evs ++ [{ r with id := "evt-" ++ toString nid }]) (nid + 1)
      rw [eventKeys_append] at hIH
      simp only [hins, rowKeys, List.map_cons, countDup, if_neg hnmem,
        List.length_cons]
      simp only [rowKeys] at hIH
      omega

/-- Row construction succeeds, producing one row per payload, when every
timestamp parses. -/
theorem buildRows_ok_of_parseable (project : ProjectRecord) (nowIso : String)
    (vf : List String) (vs : List (String × String)) :
    ∀ (ps : List EventInput) (i : Nat),
      (∀ p ∈ ps, isIsoTimestamp p.timestamp = true) →
      buildRows project nowIso vf vs ps i =
        Except.ok (ps.map (eventRowOf project nowIso vf vs)) := by
  intro ps
  induction ps with
  | nil => intro i _; rfl
  | cons p ps ih =>
    intro i h
    unfold buildRows
    rw [if_pos (h p (List.mem_cons_self p ps)),
      ih (i + 1) (fun q hq => h q (List.mem_cons_of_mem p hq))]
    rfl

/-- The success path of `ingestEvents`, resolved to its outcome. -/
theorem ingestEvents_ok (project : ProjectRecord) (payloads : List EventInput)
    (nowIso : String) (st : SysState)
    (hne : payloads ≠ []) (h2 : payloads.length ≤ MAX_BATCH)
    (h3 : ∀ p ∈ payloads, isIsoTimestamp p.timestamp = true) :
    ingestEvents project payloads nowIso st =
      (Except.ok (ingestOutcome project payloads nowIso st).1,
        (ingestOutcome project payloads nowIso st).2) := by
  have hrows := buildRows_ok_of_parseable project nowIso
    (getValidFunnelIds st project.id (requestedFunnelIds payloads))
    (getValidFunnelSteps st project.id
      ((requestedStepPairs payloads).map Prod.fst)
      ((requestedStepPairs payloads).map Prod.snd))
    payloads 0 h3
  simp only [ingestEvents, ingestOutcome, batchRows,
    List.isEmpty_iff, hne, if_false, not_lt.mpr h2, hrows]

/-- C2: every batch of 1 to 500 events whose timestamps all parse is
admitted: `ingestEvents` succeeds, `total` is the batch length,
`accepted + skipped = total`, and `skipped` counts exactly the rows whose
(project id, idempotency key) pair already exists in the event store at the
moment the row is processed (the pre-existing keys plus the keys inserted by
earlier rows of the same statement). -/
theorem ingest_batch_counts (project : ProjectRecord)
    (payloads : List EventInput) (nowIso : String) (st : SysState)
    (h1 : 1 ≤ payloads.length) (h2 : payloads.length ≤ MAX_BATCH)
    (h3 : ∀ p ∈ payloads, isIsoTimestamp p.timestamp = true) :
    ∃ res st', ingestEvents project payloads nowIso st = (Except.ok res, st') ∧
      res.total = payloads.length ∧
      res.accepted + res.skipped = res.total ∧
      res.skipped = countDup (eventKeys st.events)
        (rowKeys (batchRows project nowIso st payloads)) := by
  have hne : payloads ≠ [] := by
    cases payloads
    · simp at h1
    · simp
  have hcount := insert_accepted_add_countDup
    (batchRows project nowIso st payloads) st.events st.nextEventId
  refine ⟨_, _, ingestEvents_ok project payloads nowIso st hne h2 h3, ?_, ?_, ?_⟩
  · simp [ingestOutcome, batchRows]
  · simp only [ingestOutcome]
    omega
  · simp only [ingestOutcome]
    omega

/-- C2 witness: a two-payload batch against a store already holding the
second payload's key pair is accepted with `accepted = 1`, `skipped = 1`. -/
theorem ingest_batch_counts_witness :
    (1 ≤ ([{ timestamp := "2025-01-01T10:00:00.000Z", session_id := some "sa" },
           { timestamp := "2025-01-02T11:00:00.000Z", session_id := some "sb",
             idempotency_key := some "k2" }] : List EventInput).length ∧
     ([{ timestamp := "2025-01-01T10:00:00.000Z", session_id := some "sa" },
       { timestamp := "2025-01-02T11:00:00.000Z", session_id := some "sb",
         idempotency_key := some "k2" }] : List EventInput).length ≤ MAX_BATCH) ∧
    ∃ res st',
      ingestEvents proj0
        [{ timestamp := "2025-01-01T10:00:00.000Z", session_id := some "sa" },
         { timestamp := "2025-01-02T11:00:00.000Z", session_id := some "sb",
           idempotency_key := some "k2" }]
        "2025-01-03T00:00:00.000Z" stSharedSession = (Except.ok res, st') ∧
      res.total = 2 ∧
      res.accepted + res.skipped = res.total ∧
      res.skipped = countDup (eventKeys stSharedSession.events)
        (rowKeys (batchRows proj0 "2025-01-03T00:00:00.000Z" stSharedSession
          [{ timestamp := "2025-01-01T10:00:00.000Z", session_id := some "sa" },
           { timestamp := "2025-01-02T11:00:00.000Z", session_id := some "sb",
             idempotency_key := some "k2" }])) :=
  ⟨by decide,
    ingest_batch_counts proj0
      [{ timestamp := "2025-01-01T10:00:00.000Z", session_id := some "sa" },
       { timestamp := "2025-01-02T11:00:00.000Z", session_id := some "sb",
         idempotency_key := some "k2" }]
      "2025-01-03T00:00:00.000Z" stSharedSession
      (by decide) (by decide) (by decide)⟩

/-! ## Scheduler lemmas (shared by C3, C4 and C8) -/

/-- Unfolding: lookup at the head entry's key. -/
theorem lookupDates_cons_eq (k : String) (es : List String) (rest : PendingMap) :
    lookupDates ((k, es) :: rest) k = some es := by
  unfold lookupDates
  rw [if_pos rfl]

/-- Unfolding: lookup past a non-matching head entry. -/
theorem lookupDates_cons_ne (k q : String) (es : List String) (rest : PendingMap)
    (h : ¬ k = q) :
    lookupDates ((k, es) :: rest) q = lookupDates rest q := by
  conv_lhs => rw [lookupDates]
  rw [if_neg h]

/-- Unfolding: `Map.set` overwriting the head entry. -/
theorem setDates_cons_eq (k : String) (es : List String) (rest : PendingMap)
    (ds : List String) :
    setDates ((k, es) :: rest) k ds = (k, ds) :: rest := by
  unfold setDates
  rw [if_pos rfl]

/-- Unfolding: `Map.set` passing a non-matching head entry. -/
theorem setDates_cons_ne (k p : String) (es ds : List String) (rest : PendingMap)
    (h : ¬ k = p) :
    setDates ((k, es) :: rest) p ds = (k, es) :: setDates rest p ds := by
  conv_lhs => rw [setDates]
  rw [if_neg h]

/-- Membership after a JS `Set.add`. -/
theorem mem_addDate (ds : List String) (d x : String) :
    x ∈ addDate ds d ↔ x ∈ ds ∨ x = d := by
  unfold addDate
  by_cases h : d ∈ ds
  · rw [if_pos h]
    constructor
    · exact Or.inl
    · rintro (hx | rfl)
      · exact hx
      · exact h
  · rw [if_neg h]
    simp

/-- Unfolding: merging a value with a parseable date. -/
theorem addDates_cons_some (ds : List String) (v : String) (vs : List String)
    (d : String) (h : normalizeDate v = some d) :
    addDates ds (v :: vs) = addDates (addDate ds d) vs := by
  conv_lhs => rw [addDates]
  rw [h]

/-- Unfolding: merging a value with an unparseable date. -/
theorem addDates_cons_none (ds : List String) (v : String) (vs : List String)
    (h : normalizeDate v = none) :
    addDates ds (v :: vs) = addDates ds vs := by
  conv_lhs => rw [addDates]
  rw [h]

/-- Membership after merging a list of occurred-at values into a date set. -/
theorem mem_addDates (vs : List String) :
    ∀ (ds : List String) (x : String),
      x ∈ addDates ds vs ↔ x ∈ ds ∨ ∃ v ∈ vs, normalizeDate v = some x := by
  induction vs with
  | nil => intro ds x; simp [addDates]
  | cons v vs ih =>
    intro ds x
    cases hv : normalizeDate v with
    | none =>
      rw [addDates_cons_none ds v vs hv, ih]
      constructor
      · rintro (hx | ⟨w, hw, hwx⟩)
        · exact Or.inl hx
        · exact Or.inr ⟨w, List.mem_cons_of_mem v hw, hwx⟩
      · rintro (hx | ⟨w, hw, hwx⟩)
        · exact Or.inl hx
        · rcases List.mem_cons.mp hw with rfl | hw'
          · rw [hv] at hwx; cases hwx
          · exact Or.inr ⟨w, hw', hwx⟩
    | some d =>
      rw [addDates_cons_some ds v vs d hv, ih, mem_addDate]
      constructor
      · rintro ((hx | rfl) | ⟨w, hw, hwx⟩)
        · exact Or.inl hx
        · exact Or.inr ⟨v, List.mem_cons_self v vs, hv⟩
        · exact Or.inr ⟨w, List.mem_cons_of_mem v hw, hwx⟩
      · rintro (hx | ⟨w, hw, hwx⟩)
        · exact Or.inl (Or.inl hx)
        · rcases List.mem_cons.mp hw with rfl | hw'
          · rw [hv] at hwx
            exact Or.inl (Or.inr (Option.some.inj hwx).symm)
          · exact Or.inr ⟨w, hw', hwx⟩

/-- Lookup after a JS `Map.set`. -/
theorem lookupDates_setDates (m : PendingMap) (p : String) (ds : List String) :
    ∀ q, lookupDates (setDates m p ds) q =
      if q = p then some ds else lookupDates m q := by
  induction m with
  | nil =>
    intro q
    by_cases h : q = p
    · subst h
      show lookupDates [(q, ds)] q = if q = q then some ds else lookupDates [] q
      rw [lookupDates_cons_eq, if_pos rfl]
    · have h' : ¬ p = q := fun hh => h hh.symm
      show lookupDates [(p, ds)] q = if q = p then some ds else lookupDates [] q
      rw [lookupDates_cons_ne p q ds [] h', if_neg h]
  | cons kv rest ih =>
    intro q
    obtain ⟨k, es⟩ := kv
    by_cases hkp : k = p
    · subst hkp
      rw [setDates_cons_eq]
      by_cases hqk : q = k
      · subst hqk
        rw [lookupDates_cons_eq, if_pos rfl]
      · have hkq : ¬ k = q := fun hh => hqk hh.symm
        rw [lookupDates_cons_ne k q ds rest hkq, if_neg hqk,
          lookupDates_cons_ne k q es rest hkq]
    · rw [setDates_cons_ne k p es ds rest hkp]
      by_cases hkq : k = q
      · subst hkq
        have hqp : ¬ k = p := hkp
        rw [lookupDates_cons_eq, if_neg (fun hh => hkp hh), lookupDates_cons_eq]
      · rw [lookupDates_cons_ne k q es (setDates rest p ds) hkq, ih q,
          lookupDates_cons_ne k q es rest hkq]

/-- A successful lookup names an entry of the map. -/
theorem lookupDates_mem (m : PendingMap) (q : String) (ds : List String)
    (h : lookupDates m q = some ds) : (q, ds) ∈ m := by
  induction m with
  | nil => cases h
  | cons kv rest ih =>
    obtain ⟨k, es⟩ := kv
    by_cases hkq : k = q
    · subst hkq
      rw [lookupDates_cons_eq] at h
      cases h
      exact List.mem_cons_self _ _
    · rw [lookupDates_cons_ne k q es rest hkq] at h
      exact List.mem_cons_of_mem _ (ih h)

/-- The keys after a `Map.set`: unchanged when the key was present, appended
otherwise. -/
theorem keys_setDates (m : PendingMap) (p : String) (ds : List String) :
    (setDates m p ds).map Prod.fst =
      if p ∈ m.map Prod.fst then m.map Prod.fst
      else m.map Prod.fst ++ [p] := by
  induction m with
  | nil => simp [setDates]
  | cons kv rest ih =>
    obtain ⟨k, es⟩ := kv
    by_cases hkp : k = p
    · subst hkp
      rw [setDates_cons_eq]
      simp
    · have hpk : ¬ p = k := fun hh => hkp hh.symm
      rw [setDates_cons_ne k p es ds rest hkp]
      by_cases hp : p ∈ rest.map Prod.fst
      · simp [hp, hpk, ih]
      · simp [hp, hpk, ih]

/-- The values after a `Map.set` stay duplicate-free. -/
theorem values_setDates (m : PendingMap) (p : String) (ds : List String)
    (hm : ∀ kv ∈ m, kv.2.Nodup) (hds : ds.Nodup) :
    ∀ kv ∈ setDates m p ds, kv.2.Nodup := by
  induction m with
  | nil =>
    intro kv hkv
    rcases List.mem_singleton.mp hkv with rfl
    exact hds
  | cons kv0 rest ih =>
    intro kv hkv
    obtain ⟨k, es⟩ := kv0
    by_cases hkp : k = p
    · subst hkp
      rw [setDates_cons_eq] at hkv
      rcases List.mem_cons.mp hkv with rfl | hkv'
      · exact hds
      · exact hm kv (List.mem_cons_of_mem _ hkv')
    · rw [setDates_cons_ne k p es ds rest hkp] at hkv
      rcases List.mem_cons.mp hkv with rfl | hkv'
      · exact hm (k, es) (List.mem_cons_self _ _)
      · exact ih (fun x hx => hm x (List.mem_cons_of_mem _ hx)) kv hkv'

/-- A `Set.add` keeps the date set duplicate-free. -/
theorem addDate_nodup (ds : List String) (d : String) (h : ds.Nodup) :
    (addDate ds d).Nodup := by
  unfold addDate
  by_cases hd : d ∈ ds
  · rw [if_pos hd]; exact h
  · rw [if_neg hd]
    simp [List.nodup_append, h, hd]

/-- Merging occurred-at values keeps the date set duplicate-free. -/
theorem addDates_nodup (vs : List String) :
    ∀ ds : List String, ds.Nodup → (addDates ds vs).Nodup := by
  induction vs with
  | nil => intro ds h; exact h
  | cons v vs ih =>
    intro ds h
    cases hv : normalizeDate v with
    | none =>
      rw [addDates_cons_none ds v vs hv]
      exact ih ds h
    | some d =>
      rw [addDates_cons_some ds v vs d hv]
      exact ih _ (addDate_nodup ds d h)

/-- Membership in the project's pending set after one `notify` call: the old
dates plus the normalized dates of the call, for the notified project only. -/
theorem pendingDates_schedule (st : SchedulerState) (p : String)
    (vs : List String) (q d : String) :
    d ∈ pendingDates (scheduleProjectAggregation st p vs).1 q ↔
      d ∈ pendingDates st q ∨
        (q = p ∧ ∃ v ∈ vs, normalizeDate v = some d) := by
  have hafter : ∀ flag : Bool,
      (d ∈ pendingDates
        { pending :=
            setDates st.pending p
              (addDates ((lookupDates st.pending p).getD []) vs)
          flushScheduled := flag } q ↔
        d ∈ pendingDates st q ∨
          (q = p ∧ ∃ v ∈ vs, normalizeDate v = some d)) := by
    intro flag
    by_cases hqp : q = p
    · subst hqp
      simp only [pendingDates]
      rw [lookupDates_setDates, if_pos rfl, Option.getD_some, mem_addDates]
      simp
    · simp only [pendingDates]
      rw [lookupDates_setDates, if_neg hqp]
      simp [hqp]
  unfold scheduleProjectAggregation
  by_cases hemp : vs.isEmpty
  · rw [if_pos hemp]
    rw [List.isEmpty_iff] at hemp
    subst hemp
    simp
  · rw [if_neg hemp]
    by_cases hds : (addDates ((lookupDates st.pending p).getD []) vs).isEmpty
    · simpa [hds] using hafter st.flushScheduled
    · by_cases hfl : st.flushScheduled
      · simpa [hds, hfl] using hafter st.flushScheduled
      · simpa [hds, hfl] using hafter true

/-- One `notify` call leaves the flag set exactly when it was set or the call
scheduled a flush. -/
theorem schedule_flag (st : SchedulerState) (p : String) (vs : List String) :
    (scheduleProjectAggregation st p vs).1.flushScheduled =
      (st.flushScheduled || (scheduleProjectAggregation st p vs).2) := by
  unfold scheduleProjectAggregation
  by_cases hemp : vs.isEmpty
  · simp [hemp]
  · by_cases hds : (addDates ((lookupDates st.pending p).getD []) vs).isEmpty
    · simp [hemp, hds]
    · by_cases hfl : st.flushScheduled
      · simp [hemp, hds, hfl]
      · simp [hemp, hds, hfl]

/-- A call schedules a flush only when none was pending. -/
theorem schedule_snd_imp (st : SchedulerState) (p : String) (vs : List String)
    (h : (scheduleProjectAggregation st p vs).2 = true) :
    st.flushScheduled = false := by
  by_contra hfl
  rw [Bool.not_eq_false] at hfl
  unfold scheduleProjectAggregation at h
  by_cases hemp : vs.isEmpty
  · rw [if_pos hemp] at h; cases h
  · rw [if_neg hemp] at h
    by_cases hds : (addDates ((lookupDates st.pending p).getD []) vs).isEmpty
    · simp [hds] at h
    · simp [hds, hfl] at h

/-- One `notify` call preserves the scheduler's well-formedness. -/
theorem schedule_wf (st : SchedulerState) (p : String) (vs : List String)
    (h : SchedulerWF st) : SchedulerWF (scheduleProjectAggregation st p vs).1 := by
  obtain ⟨hkeys, hvals⟩ := h
  have hds0 : ((lookupDates st.pending p).getD []).Nodup := by
    cases hlk : lookupDates st.pending p with
    | none => simp
    | some ds => simpa using hvals (p, ds) (lookupDates_mem st.pending p ds hlk)
  have hafter : ∀ flag : Bool,
      SchedulerWF
        { pending :=
            setDates st.pending p
              (addDates ((lookupDates st.pending p).getD []) vs)
          flushScheduled := flag } := by
    intro flag
    constructor
    · show (setDates st.pending p _).map Prod.fst |>.Nodup
      rw [keys_setDates]
      by_cases hp : p ∈ st.pending.map Prod.fst
      · rw [if_pos hp]; exact hkeys
      · rw [if_neg hp]
        simp [List.nodup_append, hkeys, hp]
    · exact values_setDates st.pending p _ hvals (addDates_nodup vs _ hds0)
  unfold scheduleProjectAggregation
  by_cases hemp : vs.isEmpty
  · rw [if_pos hemp]; exact ⟨hkeys, hvals⟩
  · rw [if_neg hemp]
    by_cases hds : (addDates ((lookupDates st.pending p).getD []) vs).isEmpty
    · simpa [hds] using hafter st.flushScheduled
    · by_cases hfl : st.flushScheduled
      · simpa [hds, hfl] using hafter st.flushScheduled
      · simpa [hds, hfl] using hafter true

/-- Once the flag is set, further `notify` calls schedule nothing more and
the flag stays set until the flush tick runs. -/
theorem notifyMany_flag_true (calls : List (String × List String)) :
    ∀ st : SchedulerState, st.flushScheduled = true →
      (notifyMany st calls).1.flushScheduled = true ∧
      (notifyMany st calls).2 = 0 := by
  induction calls with
  | nil => intro st h; exact ⟨h, rfl⟩
  | cons c cs ih =>
    intro st h
    have hsnd : (scheduleProjectAggregation st c.1 c.2).2 = false := by
      cases hb : (scheduleProjectAggregation st c.1 c.2).2
      · rfl
      · rw [schedule_snd_imp st c.1 c.2 hb] at h; cases h
    have hflag : (scheduleProjectAggregation st c.1 c.2).1.flushScheduled = true := by
      rw [schedule_flag, h]; rfl
    obtain ⟨h1, h2⟩ := ih (scheduleProjectAggregation st c.1 c.2).1 hflag
    refine ⟨?_, ?_⟩
    · show (notifyMany (scheduleProjectAggregation st c.1 c.2).1 cs).1.flushScheduled = true
      exact h1
    · show (if (scheduleProjectAggregation st c.1 c.2).2 then 1 else 0) +
        (notifyMany (scheduleProjectAggregation st c.1 c.2).1 cs).2 = 0
      rw [hsnd, h2]
      rfl

/-- Any number of synchronous `notify` calls before the flush tick schedule
at most one flush. -/
theorem notifyMany_le_one (calls : List (String × List String)) :
    ∀ st : SchedulerState, (notifyMany st calls).2 ≤ 1 := by
  induction calls with
  | nil => intro st; exact Nat.zero_le 1
  | cons c cs ih =>
    intro st
    show (if (scheduleProjectAggregation st c.1 c.2).2 then 1 else 0) +
      (notifyMany (scheduleProjectAggregation st c.1 c.2).1 cs).2 ≤ 1
    cases hb : (scheduleProjectAggregation st c.1 c.2).2
    · simpa using ih (scheduleProjectAggregation st c.1 c.2).1
    · have hflag : (scheduleProjectAggregation st c.1 c.2).1.flushScheduled = true := by
        rw [schedule_flag, hb]; simp
      obtain ⟨_, h2⟩ := notifyMany_flag_true cs _ hflag
      simp [h2]

/-- The pending sets after a burst of `notify` calls: the old dates merged
with every valid date of every call addressed to the project. -/
theorem pendingDates_notifyMany (calls : List (String × List String)) :
    ∀ (st : SchedulerState) (q d : String),
      d ∈ pendingDates (notifyMany st calls).1 q ↔
        d ∈ pendingDates st q ∨
          ∃ c ∈ calls, q = c.1 ∧ ∃ v ∈ c.2, normalizeDate v = some d := by
  induction calls with
  | nil => intro st q d; simp [notifyMany]
  | cons c cs ih =>
    intro st q d
    rw [show (notifyMany st (c :: cs)).1 =
      (notifyMany (scheduleProjectAggregation st c.1 c.2).1 cs).1 from rfl]
    rw [ih, pendingDates_schedule]
    constructor
    · rintro ((hd | ⟨rfl, hv⟩) | ⟨c', hc', hq, hv⟩)
      · exact Or.inl hd
      · exact Or.inr ⟨c, List.mem_cons_self c cs, rfl, hv⟩
      · exact Or.inr ⟨c', List.mem_cons_of_mem c hc', hq, hv⟩
    · rintro (hd | ⟨c', hc', hq, hv⟩)
      · exact Or.inl (Or.inl hd)
      · rcases List.mem_cons.mp hc' with rfl | hc''
        · exact Or.inl (Or.inr ⟨hq, hv⟩)
        · exact Or.inr ⟨c', hc'', hq, hv⟩

/-- A burst of `notify` calls preserves the scheduler's well-formedness. -/
theorem notifyMany_wf (calls : List (String × List String)) :
    ∀ st : SchedulerState, SchedulerWF st → SchedulerWF (notifyMany st calls).1 := by
  induction calls with
  | nil => intro st h; exact h
  | cons c cs ih =>
    intro st h
    exact ih _ (schedule_wf st c.1 c.2 h)

/-- The per-project rebuild dates distribute over trace concatenation. -/
theorem rebuildPasses_append (a b : List FlushAction) (p : String) :
    rebuildPasses (a ++ b) p = rebuildPasses a p ++ rebuildPasses b p := by
  simp [rebuildPasses, List.filterMap_append]

/-- The rebuild dates one map entry contributes. -/
theorem rebuildPasses_entry (q : String) (sorted : List String) (p : String) :
    rebuildPasses (sorted.map (FlushAction.rebuild q) ++
      [FlushAction.invalidate q]) p =
      if q = p then sorted else [] := by
  rw [rebuildPasses_append]
  by_cases hqp : q = p
  · subst hqp
    simp [rebuildPasses, List.filterMap_map, Function.comp_def]
  · simp [rebuildPasses, List.filterMap_map, Function.comp_def, hqp]

/-- A rebuild action in a trace contributes its date to the project's rebuild
dates. -/
theorem mem_rebuildPasses_of_mem (trace : List FlushAction) (p d : String)
    (h : FlushAction.rebuild p d ∈ trace) : d ∈ rebuildPasses trace p := by
  unfold rebuildPasses
  rw [List.mem_filterMap]
  exact ⟨FlushAction.rebuild p d, h, by simp⟩

/-- A project absent from the map appears nowhere in the flush trace. -/
theorem flushTrace_not_mem (m : PendingMap) (p : String)
    (h : p ∉ m.map Prod.fst) :
    rebuildPasses (flushTrace m) p = [] ∧
    FlushAction.invalidate p ∉ flushTrace m := by
  induction m with
  | nil => exact ⟨rfl, by simp [flushTrace]⟩
  | cons kv rest ih =>
    obtain ⟨k, ds⟩ := kv
    have hkp : ¬ k = p := by
      intro hh
      exact h (by simp [hh])
    have hrest : p ∉ rest.map Prod.fst := fun hh => h (by simp [hh])
    obtain ⟨ih1, ih2⟩ := ih hrest
    have hsplit : flushTrace ((k, ds) :: rest) =
        (if ds.isEmpty then []
         else (List.insertionSort (· ≤ ·) ds).map (FlushAction.rebuild k) ++
           [FlushAction.invalidate k]) ++ flushTrace rest := by
      simp [flushTrace]
    constructor
    · rw [hsplit, rebuildPasses_append, ih1]
      by_cases hds : ds.isEmpty
      · simp [hds, rebuildPasses]
      · rw [if_neg hds, rebuildPasses_entry, if_neg hkp]
        rfl
    · rw [hsplit]
      intro hmem
      rcases List.mem_append.mp hmem with hmem1 | hmem2
      · by_cases hds : ds.isEmpty
        · rw [if_pos hds] at hmem1; cases hmem1
        · rw [if_neg hds] at hmem1
          rcases List.mem_append.mp hmem1 with hm | hm
          · rcases List.mem_map.mp hm with ⟨x, _, hx⟩
            cases hx
          · rcases List.mem_singleton.mp hm with hx
            exact hkp (FlushAction.invalidate.inj hx).symm
      · exact ih2 hmem2

/-- The dates a flush rebuilds for a project are exactly its pending dates,
each rebuilt once, in sorted order. -/
theorem rebuildPasses_flushTrace (m : PendingMap)
    (hkeys : (m.map Prod.fst).Nodup) (hvals : ∀ kv ∈ m, kv.2.Nodup)
    (q : String) :
    (rebuildPasses (flushTrace m) q).Nodup ∧
    ∀ d, (d ∈ rebuildPasses (flushTrace m) q ↔ d ∈ (lookupDates m q).getD []) := by
  induction m with
  | nil => exact ⟨List.nodup_nil, by intro d; simp [flushTrace, rebuildPasses, lookupDates]⟩
  | cons kv rest ih =>
    obtain ⟨k, ds⟩ := kv
    have hmap : ((k, ds) :: rest).map Prod.fst = k :: rest.map Prod.fst := rfl
    rw [hmap] at hkeys
    have hkeys' : (rest.map Prod.fst).Nodup := (List.nodup_cons.mp hkeys).2
    have hk : k ∉ rest.map Prod.fst := (List.nodup_cons.mp hkeys).1
    have hds : ds.Nodup := by
      simpa using hvals (k, ds) (List.mem_cons_self _ _)
    have hsplit : flushTrace ((k, ds) :: rest) =
        (if ds.isEmpty then []
         else (List.insertionSort (· ≤ ·) ds).map (FlushAction.rebuild k) ++
           [FlushAction.invalidate k]) ++ flushTrace rest := by
      simp [flushTrace]
    by_cases hkq : k = q
    · subst hkq
      obtain ⟨hnil, _⟩ := flushTrace_not_mem rest k hk
      have hpasses : rebuildPasses (flushTrace ((k, ds) :: rest)) k =
          if ds.isEmpty then [] else List.insertionSort (· ≤ ·) ds := by
        rw [hsplit, rebuildPasses_append, hnil, List.append_nil]
        by_cases hde : ds.isEmpty
        · simp [hde, rebuildPasses]
        · rw [if_neg hde, if_neg hde, rebuildPasses_entry, if_pos rfl]
      constructor
      · rw [hpasses]
        by_cases hde : ds.isEmpty
        · simp [hde]
        · rw [if_neg hde]
          exact ((List.perm_insertionSort _ ds).nodup_iff).mpr hds
      · intro d
        rw [hpasses, lookupDates_cons_eq, Option.getD_some]
        by_cases hde : ds.isEmpty
        · rw [if_pos hde, List.isEmpty_iff.mp hde]
        · rw [if_neg hde]
          exact List.mem_insertionSort _
    · obtain ⟨ih1, ih2⟩ :=
        ih hkeys' (fun x hx => hvals x (List.mem_cons_of_mem _ hx))
      have hpasses : rebuildPasses (flushTrace ((k, ds) :: rest)) q =
          rebuildPasses (flushTrace rest) q := by
        rw [hsplit, rebuildPasses_append]
        by_cases hde : ds.isEmpty
        · simp [hde, rebuildPasses]
        · rw [if_neg hde, rebuildPasses_entry, if_neg hkq, List.nil_append]
      refine ⟨by rw [hpasses]; exact ih1, ?_⟩
      intro d
      rw [hpasses, lookupDates_cons_ne k q ds rest hkq]
      exact ih2 d

/-! ## C3 — coalescing of scheduling bursts -/

/-- C3: any burst of synchronous `notify` calls before the next flush tick
schedules at most one flush; the calls merge their valid dates into the
per-project pending sets; and the single flush of the resulting state
performs exactly one rebuild pass per distinct pending (project, date) —
the per-project rebuild list is duplicate-free and covers exactly the
pending dates. -/
theorem scheduler_coalesces (st : SchedulerState)
    (calls : List (String × List String)) (hwf : SchedulerWF st) :
    (notifyMany st calls).2 ≤ 1 ∧
    (∀ q d, d ∈ pendingDates (notifyMany st calls).1 q ↔
      d ∈ pendingDates st q ∨
        ∃ c ∈ calls, q = c.1 ∧ ∃ v ∈ c.2, normalizeDate v = some d) ∧
    (∀ q, (rebuildPasses (flushTrace (notifyMany st calls).1.pending) q).Nodup ∧
      ∀ d, d ∈ rebuildPasses (flushTrace (notifyMany st calls).1.pending) q ↔
        d ∈ pendingDates (notifyMany st calls).1 q) := by
  obtain ⟨hkeys, hvals⟩ := notifyMany_wf calls st hwf
  refine ⟨notifyMany_le_one calls st,
    fun q d => pendingDates_notifyMany calls st q d, fun q => ?_⟩
  obtain ⟨h1, h2⟩ :=
    rebuildPasses_flushTrace (notifyMany st calls).1.pending hkeys hvals q
  exact ⟨h1, fun d => h2 d⟩

/-- C3 witness: two overlapping notify calls for one project, evaluated. -/
theorem scheduler_coalesces_witness :
    SchedulerWF { pending := [], flushScheduled := false } ∧
    ((notifyMany { pending := [], flushScheduled := false }
        [("p", ["2025-01-01T10:00:00.000Z"]),
         ("p", ["2025-01-01T10:00:00.000Z", "2025-01-02T11:00:00.000Z"])]).2 ≤ 1 ∧
      (∀ q d, d ∈ pendingDates (notifyMany { pending := [], flushScheduled := false }
          [("p", ["2025-01-01T10:00:00.000Z"]),
           ("p", ["2025-01-01T10:00:00.000Z", "2025-01-02T11:00:00.000Z"])]).1 q ↔
        d ∈ pendingDates { pending := [], flushScheduled := false } q ∨
          ∃ c ∈ [("p", ["2025-01-01T10:00:00.000Z"]),
                 ("p", ["2025-01-01T10:00:00.000Z", "2025-01-02T11:00:00.000Z"])],
            q = c.1 ∧ ∃ v ∈ c.2, normalizeDate v = some d) ∧
      (∀ q, (rebuildPasses (flushTrace (notifyMany
          { pending := [], flushScheduled := false }
          [("p", ["2025-01-01T10:00:00.000Z"]),
           ("p", ["2025-01-01T10:00:00.000Z", "2025-01-02T11:00:00.000Z"])]).1.pending) q).Nodup ∧
        ∀ d, d ∈ rebuildPasses (flushTrace (notifyMany
            { pending := [], flushScheduled := false }
            [("p", ["2025-01-01T10:00:00.000Z"]),
             ("p", ["2025-01-01T10:00:00.000Z", "2025-01-02T11:00:00.000Z"])]).1.pending) q ↔
          d ∈ pendingDates (notifyMany { pending := [], flushScheduled := false }
            [("p", ["2025-01-01T10:00:00.000Z"]),
             ("p", ["2025-01-01T10:00:00.000Z", "2025-01-02T11:00:00.000Z"])]).1 q)) :=
  ⟨by decide,
    scheduler_coalesces { pending := [], flushScheduled := false }
      [("p", ["2025-01-01T10:00:00.000Z"]),
       ("p", ["2025-01-01T10:00:00.000Z", "2025-01-02T11:00:00.000Z"])]
      (by decide)⟩

/-! ## C4 — per-project flush order and single invalidation -/

/-- The flush trace decomposes around the one invalidation of a project with
pending dates: its sorted rebuilds stand before it, nothing of the project
after it. -/
theorem flush_decomposition (m : PendingMap) (p : String) (ds : List String)
    (hkeys : (m.map Prod.fst).Nodup)
    (hlk : lookupDates m p = some ds) (hne : ¬ ds.isEmpty) :
    ∃ pre post, flushTrace m = pre ++ FlushAction.invalidate p :: post ∧
      FlushAction.invalidate p ∉ pre ∧ FlushAction.invalidate p ∉ post ∧
      (∀ d, FlushAction.rebuild p d ∉ post) ∧
      rebuildPasses pre p = List.insertionSort (· ≤ ·) ds := by
  induction m with
  | nil => cases hlk
  | cons kv rest ih =>
    obtain ⟨k, es⟩ := kv
    have hmap : ((k, es) :: rest).map Prod.fst = k :: rest.map Prod.fst := rfl
    rw [hmap] at hkeys
    have hkeys' : (rest.map Prod.fst).Nodup := (List.nodup_cons.mp hkeys).2
    have hk : k ∉ rest.map Prod.fst := (List.nodup_cons.mp hkeys).1
    have hsplit : flushTrace ((k, es) :: rest) =
        (if es.isEmpty then []
         else (List.insertionSort (· ≤ ·) es).map (FlushAction.rebuild k) ++
           [FlushAction.invalidate k]) ++ flushTrace rest := by
      simp [flushTrace]
    by_cases hkp : k = p
    · subst hkp
      rw [lookupDates_cons_eq] at hlk
      cases hlk
      obtain ⟨hnil, hninv⟩ := flushTrace_not_mem rest k hk
      refine ⟨(List.insertionSort (· ≤ ·) ds).map (FlushAction.rebuild k),
        flushTrace rest, ?_, ?_, hninv, ?_, ?_⟩
      · rw [hsplit, if_neg hne]
        simp [List.append_assoc]
      · intro hmem
        rcases List.mem_map.mp hmem with ⟨x, _, hx⟩
        cases hx
      · intro d hmem
        have hd := mem_rebuildPasses_of_mem _ k d hmem
        rw [hnil] at hd
        cases hd
      · simp [rebuildPasses, List.filterMap_map, Function.comp_def]
    · rw [lookupDates_cons_ne k p es rest hkp] at hlk
      obtain ⟨pre, post, h1, h2, h3, h4, h5⟩ := ih hkeys' hlk
      refine ⟨(if es.isEmpty then []
               else (List.insertionSort (· ≤ ·) es).map (FlushAction.rebuild k) ++
                 [FlushAction.invalidate k]) ++ pre, post, ?_, ?_, h3, h4, ?_⟩
      · rw [hsplit, h1, List.append_assoc]
      · intro hmem
        rcases List.mem_append.mp hmem with hm | hm
        · by_cases hde : es.isEmpty
          · rw [if_pos hde] at hm; cases hm
          · rw [if_neg hde] at hm
            rcases List.mem_append.mp hm with hm2 | hm2
            · rcases List.mem_map.mp hm2 with ⟨x, _, hx⟩
              cases hx
            · have hx := List.mem_singleton.mp hm2
              exact hkp ((FlushAction.invalidate.inj hx).symm)
        · exact h2 hm
      · rw [rebuildPasses_append, h5]
        by_cases hde : es.isEmpty
        · rw [if_pos hde]
          rfl
        · rw [if_neg hde, rebuildPasses_entry, if_neg hkp, List.nil_append]

/-- C4: during a flush, a project with pending dates has every pending date
rebuilt exactly once, in ascending calendar-date order, and its cache is
invalidated exactly once, strictly after all of its rebuilds — never between
them. -/
theorem flush_invalidates_once_after_rebuilds (st : SchedulerState)
    (p : String) (hwf : SchedulerWF st) (hne : pendingDates st p ≠ []) :
    ∃ pre post, (flushQueue st).2 = pre ++ FlushAction.invalidate p :: post ∧
      FlushAction.invalidate p ∉ pre ∧ FlushAction.invalidate p ∉ post ∧
      (∀ d, FlushAction.rebuild p d ∉ post) ∧
      List.Sorted (· ≤ ·) (rebuildPasses pre p) ∧
      (rebuildPasses pre p).Nodup ∧
      (∀ d, d ∈ rebuildPasses pre p ↔ d ∈ pendingDates st p) := by
  obtain ⟨hkeys, hvals⟩ := hwf
  cases hlk : lookupDates st.pending p with
  | none =>
    exact absurd (by simp [pendingDates, hlk]) hne
  | some ds =>
    have hdsne : ¬ ds.isEmpty := by
      intro hh
      apply hne
      simp [pendingDates, hlk, List.isEmpty_iff.mp hh]
    obtain ⟨pre, post, h1, h2, h3, h4, h5⟩ :=
      flush_decomposition st.pending p ds hkeys hlk hdsne
    have hpd : pendingDates st p = ds := by simp [pendingDates, hlk]
    have hdsnodup : ds.Nodup := by
      simpa using hvals (p, ds) (lookupDates_mem st.pending p ds hlk)
    refine ⟨pre, post, h1, h2, h3, h4, ?_, ?_, ?_⟩
    · rw [h5]
      exact List.sorted_insertionSort _ ds
    · rw [h5]
      exact ((List.perm_insertionSort _ ds).nodup_iff).mpr hdsnodup
    · intro d
      rw [h5, hpd]
      exact List.mem_insertionSort _

/-- C4 witness: a project with the out-of-order pending dates 2025-01-02 and
2025-01-01, evaluated through the flush. -/
theorem flush_invalidates_once_after_rebuilds_witness :
    SchedulerWF stPendingTwo ∧
    (∃ pre post, (flushQueue stPendingTwo).2 =
        pre ++ FlushAction.invalidate "p" :: post ∧
      FlushAction.invalidate "p" ∉ pre ∧ FlushAction.invalidate "p" ∉ post ∧
      (∀ d, FlushAction.rebuild "p" d ∉ post) ∧
      List.Sorted (· ≤ ·) (rebuildPasses pre "p") ∧
      (rebuildPasses pre "p").Nodup ∧
      (∀ d, d ∈ rebuildPasses pre "p" ↔ d ∈ pendingDates stPendingTwo "p")) :=
  ⟨by decide,
    flush_invalidates_once_after_rebuilds stPendingTwo "p" (by decide)
      (by decide)⟩

/-! ## C8 — which dates the scheduler is signalled with -/

/-- Normalizing a canonical ISO timestamp yields its date part. -/
theorem normalizeDate_of_iso (s : String) (h : isIsoTimestamp s = true) :
    normalizeDate s = some (s.take 10) := by
  simp [normalizeDate, parseIsoTimestamp, h]

/-- The occurred-at column of a batch's rows is the payloads' timestamps. -/
theorem batchRows_occurredAt (project : ProjectRecord) (nowIso : String)
    (st : SysState) (payloads : List EventInput) :
    (batchRows project nowIso st payloads).map (fun r => r.occurredAt) =
      payloads.map (fun p => p.timestamp) := by
  simp only [batchRows, List.map_map]
  rfl

/-- C8 counterexample: the batch `payloadsDup` against the store already
holding key "k2" accepts only the 2025-01-01 row (no stored event is dated
2025-01-02 afterwards), yet 2025-01-02 — a date occurring only on the
skipped duplicate row — is signalled to the scheduler, because the source
passes every row's occurred-at to `scheduleProjectAggregation`, not only the
accepted ones. -/
theorem ingest_signals_skipped_date_counterexample :
    (ingestEvents proj0 payloadsDup "2025-01-03T00:00:00.000Z"
      stSharedSession).1 =
        Except.ok { accepted := 1, total := 2, skipped := 1, errors := [] } ∧
    ((ingestEvents proj0 payloadsDup "2025-01-03T00:00:00.000Z"
      stSharedSession).2.events.map fun e => dateOfIso e.occurredAt) =
        ["2025-01-01", "2025-01-01", "2025-01-01"] ∧
    "2025-01-02" ∈ pendingDates
      (ingestEvents proj0 payloadsDup "2025-01-03T00:00:00.000Z"
        stSharedSession).2.scheduler "proj" := by
  exact ⟨by decide, by decide, by decide⟩

/-- C8 amended: after a successful call that accepts at least one row, the
scheduler's pending set for the project gains exactly the distinct calendar
dates of all rows of the batch — skipped duplicates included; when no row is
accepted, the scheduler is not signalled at all. -/
theorem ingest_signals_batch_dates (project : ProjectRecord)
    (payloads : List EventInput) (nowIso : String) (st : SysState)
    (hne : payloads ≠ []) (h2 : payloads.length ≤ MAX_BATCH)
    (h3 : ∀ p ∈ payloads, isIsoTimestamp p.timestamp = true) :
    ∃ res st', ingestEvents project payloads nowIso st = (Except.ok res, st') ∧
      (res.accepted = 0 → st'.scheduler = st.scheduler) ∧
      (0 < res.accepted → ∀ d,
        d ∈ pendingDates st'.scheduler project.id ↔
          d ∈ pendingDates st.scheduler project.id ∨
            ∃ p ∈ payloads, p.timestamp.take 10 = d) := by
  refine ⟨_, _, ingestEvents_ok project payloads nowIso st hne h2 h3, ?_, ?_⟩
  · intro h0
    simp only [ingestOutcome] at h0 ⊢
    simp [h0]
  · intro hpos d
    simp only [ingestOutcome] at hpos ⊢
    rw [if_pos hpos, pendingDates_schedule]
    constructor
    · rintro (hd | ⟨_, v, hvmem, hvd⟩)
      · exact Or.inl hd
      · rw [show (batchRows project nowIso st payloads).map
            (fun r => r.occurredAt) = payloads.map (fun p => p.timestamp) from
            batchRows_occurredAt project nowIso st payloads] at hvmem
        rcases List.mem_map.mp hvmem with ⟨p, hp, rfl⟩
        rw [normalizeDate_of_iso _ (h3 p hp)] at hvd
        exact Or.inr ⟨p, hp, Option.some.inj hvd⟩
    · rintro (hd | ⟨p, hp, hpd⟩)
      · exact Or.inl hd
      · refine Or.inr ⟨rfl, p.timestamp, ?_, ?_⟩
        · rw [show (batchRows project nowIso st payloads).map
            (fun r => r.occurredAt) = payloads.map (fun q => q.timestamp) from
            batchRows_occurredAt project nowIso st payloads]
          exact List.mem_map.mpr ⟨p, hp, rfl⟩
        · rw [normalizeDate_of_iso _ (h3 p hp), hpd]

/-- C8 amended witness: the duplicate-carrying batch, evaluated. -/
theorem ingest_signals_batch_dates_witness :
    (payloadsDup ≠ [] ∧ payloadsDup.length ≤ MAX_BATCH) ∧
    ∃ res st', ingestEvents proj0 payloadsDup "2025-01-03T00:00:00.000Z"
        stSharedSession = (Except.ok res, st') ∧
      (res.accepted = 0 → st'.scheduler = stSharedSession.scheduler) ∧
      (0 < res.accepted → ∀ d,
        d ∈ pendingDates st'.scheduler proj0.id ↔
          d ∈ pendingDates stSharedSession.scheduler proj0.id ∨
            ∃ p ∈ payloadsDup, p.timestamp.take 10 = d) :=
  ⟨⟨by decide, by decide⟩,
    ingest_signals_batch_dates proj0 payloadsDup "2025-01-03T00:00:00.000Z"
      stSharedSession (by decide) (by decide) (by decide)⟩

/-! ## C5 — funnel step conversion arithmetic -/

/-- Mapping a function of the element over an enumeration forgets the
indices. -/
theorem enum_map_comp_snd {α β : Type} (l : List α) (f : α → β) :
    l.enum.map (fun p => f p.2) = l.map f := by
  rw [show (fun p : Nat × α => f p.2) = f ∘ Prod.snd from rfl, ← List.map_map,
    List.enum_map_snd]

/-- Truncated subtraction cast to the integers is the clamped difference. -/
theorem natSub_cast_max (a b : ℕ) :
    ((a - b : ℕ) : ℤ) = max ((a : ℤ) - (b : ℤ)) 0 := by
  omega

/-- Rounding an integral rational to two decimals returns it unchanged. -/
theorem toFixed2_natCast (n : ℕ) : toFixed2 ((n : ℚ)) = (n : ℚ) := by
  unfold toFixed2
  rw [show ((n : ℚ) * 100) = (((n * 100 : ℕ) : ℤ) : ℚ) by push_cast; ring,
    round_intCast]
  push_cast
  field_simp

/-- Rounding to two decimals fixes any rational equal to a natural. -/
theorem toFixed2_eq_natCast_of_eq (q : ℚ) (n : ℕ) (h : q = (n : ℚ)) :
    toFixed2 q = (n : ℚ) := by
  rw [h, toFixed2_natCast]

/-- C5: `getFunnelStats` on a funnel with at least one step returns one
output entry per step in the funnel's normalized step order; each step's
visits is its distinct-visitor count; `totalVisitors` is the first step's
visits; each step's conversions equal the next step's visits (the last step
converts into itself); `dropOff` is the visit surplus clamped at zero; and
`conversionRate` is `conversions / visits × 100` rounded to two decimals, or
0 for zero visits.  On the 10/6/6 example the conversions are [6, 6, 6],
the drop-offs [4, 0, 0], the conversion rates [60, 100, 100] and
`totalVisitors` is 10. -/
theorem getFunnelStats_spec :
    (∀ (st : SysState) (projectId funnelId : String)
       (params : FunnelStatsRequest) (funnel : FunnelRecord),
      getFunnel st projectId funnelId = some funnel → funnel.steps ≠ [] →
      ∃ stats, getFunnelStats st projectId funnelId params = some stats ∧
        stats.steps.map (fun s => s.stepKey) =
          funnel.steps.map (fun s => s.key) ∧
        (∀ s ∈ stats.steps,
          s.visits = stepVisitors st projectId funnelId params s.stepKey) ∧
        stats.totalVisitors = (stats.steps.head?.elim 0 fun s => s.visits) ∧
        (∀ i, i + 1 < stats.steps.length →
          (stats.steps[i]?.elim 0 fun s => s.conversions) =
            (stats.steps[i + 1]?.elim 0 fun s => s.visits)) ∧
        ((stats.steps.getLast?.elim 0 fun s => s.conversions) =
          (stats.steps.getLast?.elim 0 fun s => s.visits)) ∧
        (∀ s ∈ stats.steps,
          ((s.dropOff : ℤ) = max ((s.visits : ℤ) - (s.conversions : ℤ)) 0) ∧
          s.conversionRate =
            (if 0 < s.visits then
              toFixed2 ((s.conversions : ℚ) / (s.visits : ℚ) * 100)
            else 0))) ∧
    ((getFunnelStats stABC "proj" "fn" {}).map
      (fun s => (s.totalVisitors,
        s.steps.map fun x => (x.stepKey, x.visits, x.conversions, x.dropOff))) =
      some (10, [("A", 10, 6, 4), ("B", 6, 6, 0), ("C", 6, 6, 0)]) ∧
    (getFunnelStats stABC "proj" "fn" {}).map
      (fun s => s.steps.map fun x => x.conversionRate) =
      some [60, 100, 100]) := by
  constructor
  · intro st projectId funnelId params funnel hget hne
    have hemp : ¬ funnel.steps.isEmpty = true := by
      intro hh
      exact hne (List.isEmpty_iff.mp hh)
    refine ⟨_, by simp only [getFunnelStats, hget]; rw [if_neg hemp], ?_, ?_,
      ?_, ?_, ?_, ?_⟩
    · rw [List.map_map]
      exact enum_map_comp_snd funnel.steps (fun s => s.key)
    · intro s hs
      rcases List.mem_map.mp hs with ⟨pair, _, rfl⟩
      rfl
    · cases hsteps : funnel.steps with
      | nil => exact absurd hsteps hne
      | cons s0 rest =>
        simp [hsteps, List.enum_cons]
    · intro i hi
      simp only [List.length_map, List.enum_length] at hi
      have hi1 : i < funnel.steps.length := Nat.lt_of_succ_lt hi
      simp only [List.getElem?_map, List.getElem?_enum,
        List.getElem?_eq_getElem hi1, List.getElem?_eq_getElem hi,
        Option.map_some', Option.elim]
      rw [if_neg (by omega)]
    · simp only [List.getLast?_eq_getElem?, List.length_map, List.enum_length]
      have hn : 0 < funnel.steps.length := by
        cases h : funnel.steps
        · exact absurd h hne
        · simp [h]
      have hidx : funnel.steps.length - 1 < funnel.steps.length := by omega
      simp only [List.getElem?_map, List.getElem?_enum,
        List.getElem?_eq_getElem hidx, Option.map_some', Option.elim]
      simp
    · intro s hs
      rcases List.mem_map.mp hs with ⟨pair, _, rfl⟩
      exact ⟨natSub_cast_max _ _, rfl⟩
  · constructor
    · decide
    · have hget : getFunnel stABC "proj" "fn" = some funnelRecABC := by decide
      have hvA : stepVisitors stABC "proj" "fn" {} "A" = 10 := by decide
      have hvB : stepVisitors stABC "proj" "fn" {} "B" = 6 := by decide
      have hvC : stepVisitors stABC "proj" "fn" {} "C" = 6 := by decide
      simp only [getFunnelStats, hget]
      rw [if_neg (by decide)]
      simp only [funnelRecABC, stepInfoA, stepInfoB, stepInfoC, List.enum,
        List.enumFrom, List.map_cons, List.map_nil, Option.map_some']
      rw [hvA, hvB, hvC]
      simp only [List.length_cons, List.length_nil, List.getElem?_cons_zero,
        List.getElem?_cons_succ]
      norm_num
      rw [hvB, hvC]
      refine ⟨?_, ?_, ?_⟩
      · exact_mod_cast toFixed2_eq_natCast_of_eq _ 60 (by norm_num)
      · exact_mod_cast toFixed2_eq_natCast_of_eq _ 100 (by norm_num)
      · exact_mod_cast toFixed2_eq_natCast_of_eq _ 100 (by norm_num)

/-! ## C10 — conversion rate is not capped at 100 -/

/-- C10: with step B drawing more distinct visitors (2) than step A (1),
step A's conversions (2) exceed its visits (1), its drop-off is clamped to
zero, and its conversion rate is 200 — above 100: the per-step visitor sets
are counted independently, not as nested cohorts. -/
theorem funnel_rate_uncapped :
    ((getFunnelStats stUncapped "proj" "fn" {}).map
      (fun s => s.steps.map fun x => (x.stepKey, x.visits, x.conversions, x.dropOff))) =
      some [("A", 1, 2, 0), ("B", 2, 2, 0)] ∧
    ((getFunnelStats stUncapped "proj" "fn" {}).map
      (fun s => s.steps.map fun x => x.conversionRate)) = some [200, 100] ∧
    (100 : ℚ) < 200 := by
  refine ⟨by decide, ?_, by norm_num⟩
  have hget : getFunnel stUncapped "proj" "fn" = some funnelRecAB := by decide
  have hvA : stepVisitors stUncapped "proj" "fn" {} "A" = 1 := by decide
  have hvB : stepVisitors stUncapped "proj" "fn" {} "B" = 2 := by decide
  simp only [getFunnelStats, hget]
  rw [if_neg (by decide)]
  simp only [funnelRecAB, stepInfoA, stepInfoB, List.enum, List.enumFrom,
    List.map_cons, List.map_nil, Option.map_some']
  rw [hvA, hvB]
  simp only [List.length_cons, List.length_nil, List.getElem?_cons_zero,
    List.getElem?_cons_succ]
  norm_num
  rw [hvB]
  refine ⟨?_, ?_⟩
  · exact_mod_cast toFixed2_eq_natCast_of_eq _ 200 (by norm_num)
  · exact_mod_cast toFixed2_eq_natCast_of_eq _ 100 (by norm_num)

end Rybbit
